import Mathlib

/-!
Verification of the DataViz Pro ingestion core (src/app.py, src/flask_app.py).

The tabular data model is shallowly embedded: a parsed table ("DataFrame") is a
list of named, dtype-tagged columns over a cell domain of integers, text,
integer-valued floats and missing values.  Machine integers are modelled as
`Int` with explicit wrap-around where a cast occurs.  Fallible parsing is
modelled with `Option` at the upload boundary (the readers in the source catch
their own exceptions and return an empty frame).
-/

set_option autoImplicit false

namespace DataViz

/-- Configuration constants of src/app.py (lines 24-28). -/
def MAX_FILE_SIZE_MB : Nat := 50

/-- Row cap, src/app.py line 25. -/
def MAX_ROWS : Nat := 100000

/-- Preview cap, src/app.py line 26. -/
def PREVIEW_ROWS : Nat := 10000

/-- CSV chunk size, src/app.py line 27. -/
def CHUNK_SIZE : Nat := 50000

/-- A cell value: missing (NaN), an integer, a piece of text, or a float.
Floats are restricted to integer-valued floats (constructor `flt`), which is
the part of the float domain the integer/text claims exercise; the tag records
that pandas stores the value with a floating dtype (e.g. prints `1.0`). -/
inductive Cell where
  | na : Cell
  | int : Int → Cell
  | str : String → Cell
  | flt : Int → Cell
deriving DecidableEq, Repr

namespace Cell

def isNa : Cell → Bool
  | .na => true
  | _ => false

def isStr : Cell → Bool
  | .str _ => true
  | _ => false

def isFlt : Cell → Bool
  | .flt _ => true
  | _ => false

def isInt : Cell → Bool
  | .int _ => true
  | _ => false

end Cell

/-- Python `str(v)` on a cell value (floats print with a trailing `.0`). -/
def cellStr : Cell → String
  | .na => "nan"
  | .int z => toString z
  | .str s => s
  | .flt z => toString z ++ ".0"

/-- The integer content of a numeric cell, if any. -/
def cellInt : Cell → Option Int
  | .int z => some z
  | .flt z => some z
  | _ => none

/-- pandas dtypes reachable in this pipeline.  `other` stands for any further
dtype on which the optimizer's min/max aggregation raises
`TypeError`/`ValueError` (the `except` branch of src/app.py line 218). -/
inductive Dtype where
  | i8 | i16 | i32 | i64 | f32 | f64 | obj | other
deriving DecidableEq, Repr

namespace Dtype

/-- `str(col_type)[:3] == 'int'` (src/app.py line 209). -/
def isIntKind : Dtype → Bool
  | .i8 | .i16 | .i32 | .i64 => true
  | _ => false

/-- `str(col_type)[:5] == 'float'` (src/app.py line 216). -/
def isFloatKind : Dtype → Bool
  | .f32 | .f64 => true
  | _ => false

def isNumeric : Dtype → Bool
  | .i8 | .i16 | .i32 | .i64 | .f32 | .f64 => true
  | _ => false

end Dtype

/-- A named, dtype-tagged column of a parsed table. -/
structure Col where
  name : String
  dtype : Dtype
  cells : List Cell
deriving DecidableEq, Repr

/-- A parsed table is an ordered list of columns (pandas DataFrame). -/
abbrev Frame := List Col

/-- `len(df)`: the row count, read off the first column (all columns of a
well-formed frame have the same length; a frame with no columns has, in this
pipeline, already had all its rows dropped). -/
def numRows (df : Frame) : Nat :=
  match df with
  | [] => 0
  | c :: _ => c.cells.length

/-- Column names, `df.columns`. -/
def frameNames (df : Frame) : List String :=
  df.map (fun c => c.name)

/-- `df.empty`: true iff either axis has length 0. -/
def frameEmpty (df : Frame) : Bool :=
  df.isEmpty || numRows df == 0

/-- Every column has the frame's row count: the rectangularity invariant all
pipeline operations preserve. -/
def WF (df : Frame) : Prop :=
  ∀ c ∈ df, c.cells.length = numRows df

/-- A raw spreadsheet / CSV grid: a list of rows of cells, before any header
interpretation. -/
abbrev RawTable := List (List Cell)

/-- Keep the entries of `l` whose position carries `true` in the mask. -/
def maskFilter {α : Type} (m : List Bool) (l : List α) : List α :=
  (l.zip m).filterMap (fun p => if p.2 then some p.1 else none)

/-- Pad (with NaN) or cut a raw row to the parse width, as the reader conforms
ragged rows to the header's width. -/
def conform (w : Nat) (r : List Cell) : List Cell :=
  r.take w ++ List.replicate (w - r.length) Cell.na

/-- pandas dtype inference for one parsed column: any text makes it `object`
(also the inference on an empty parse), any float or missing value makes it
`float64`, otherwise a pure integer column is `int64`. -/
def inferDtype (cells : List Cell) : Dtype :=
  if cells.isEmpty then .obj
  else if cells.any Cell.isStr then .obj
  else if cells.any Cell.isFlt || cells.any Cell.isNa then .f64
  else .i64

/-- On a column inferred float, pandas stores integers as floats. -/
def convertCell (d : Dtype) (c : Cell) : Cell :=
  match d, c with
  | .f64, .int z => .flt z
  | _, c => c

/-- The auto-generated name pandas gives a missing header cell at column
position `j`. -/
def colName (c : Cell) (j : Nat) : String :=
  match c with
  | .na => "Unnamed: " ++ toString j
  | c => cellStr c

/-- `pd.read_excel(..., header=h, nrows=cap)` / `pd.read_csv` on a raw grid:
row `h` provides the column names (missing cells become placeholder names),
the following rows (at most `cap`) provide the data, conformed to the header
width, with per-column dtype inference. -/
def parseTable (t : RawTable) (h : Nat) (cap : Nat) : Frame :=
  let hdr := t.getD h []
  let w := hdr.length
  let data := ((t.drop (h + 1)).take cap).map (conform w)
  (List.range w).map (fun j =>
    let raw := data.map (fun r => r.getD j Cell.na)
    let d := inferDtype raw
    ⟨colName (hdr.getD j Cell.na) j, d, raw.map (convertCell d)⟩)

/-- `df.dropna(axis=1, how='all')`: drop every column all of whose values are
missing (src/app.py lines 231, 272; src/flask_app.py line 234). -/
def dropEmptyCols (df : Frame) : Frame :=
  df.filter (fun c => c.cells.any (fun x => !x.isNa))

/-- The per-row keep mask of `df.dropna(axis=0, how='all')`: a row survives iff
some column holds a non-missing value there. -/
def rowKeepMask (df : Frame) : List Bool :=
  (List.range (numRows df)).map
    (fun i => df.any (fun c => !(c.cells.getD i Cell.na).isNa))

/-- `df.dropna(axis=0, how='all')` (src/app.py lines 231, 272;
src/flask_app.py line 240). -/
def dropEmptyRows (df : Frame) : Frame :=
  df.map (fun c => { c with cells := maskFilter (rowKeepMask df) c.cells })

/-- Both cleaning passes, in source order: columns first, then rows. -/
def dropEmpty (df : Frame) : Frame :=
  dropEmptyRows (dropEmptyCols df)

/-- Signed wrap-around of an integer to `w` bits: the value a numpy `astype`
cast stores. -/
def wrap (w : Nat) (z : Int) : Int :=
  (z + 2 ^ (w - 1)) % 2 ^ w - 2 ^ (w - 1)

/-- `np.iinfo` minimum of the signed `w`-bit integers. -/
def intMin (w : Nat) : Int := -(2 ^ (w - 1))

/-- `np.iinfo` maximum of the signed `w`-bit integers. -/
def intMax (w : Nat) : Int := 2 ^ (w - 1) - 1

/-- Largest odd divisor, for float32 representability of an integer. -/
def oddPart : Nat → Nat
  | 0 => 0
  | n + 1 => if (n + 1) % 2 = 0 then oddPart ((n + 1) / 2) else n + 1
decreasing_by exact Nat.div_lt_self (Nat.succ_pos n) (by omega)

/-- An integer is exactly representable as an IEEE-754 binary32 value iff its
odd part fits the 24-bit significand and its magnitude stays below the largest
finite float32. -/
def f32RepInt (z : Int) : Bool :=
  z.natAbs == 0 ||
    (decide (oddPart z.natAbs < 2 ^ 24) &&
      decide (z.natAbs ≤ (2 ^ 24 - 1) * 2 ^ 104))

/-- Round-trip check `pd.to_numeric(..., downcast='float')` performs on each
value (NaN survives any float width). -/
def f32RepCell : Cell → Bool
  | .na => true
  | .int z => f32RepInt z
  | .flt z => f32RepInt z
  | .str _ => false

/-- The branch of the optimizer loop body (src/app.py lines 204-219) that
chooses a new storage dtype for a column, if any: an integer column takes the
first of int8/int16/int32 whose `np.iinfo` range strictly contains its
min/max (no branch fires when the range does not strictly fit 32 bits, or the
column is empty — pandas then compares against NaN, which is falsy); a float64
column is downcast to float32 when every value survives the round trip; other
dtypes (object is filtered out before the `try`, and `other` raises into the
`except`) are left alone. -/
def optDecision (d : Dtype) (cells : List Cell) : Option Dtype :=
  match d with
  | .i8 | .i16 | .i32 | .i64 =>
    match (cells.filterMap cellInt).min?, (cells.filterMap cellInt).max? with
    | some m, some M =>
      if intMin 8 < m ∧ M < intMax 8 then some .i8
      else if intMin 16 < m ∧ M < intMax 16 then some .i16
      else if intMin 32 < m ∧ M < intMax 32 then some .i32
      else none
    | _, _ => none
  | .f64 => if cells.all f32RepCell then some .f32 else none
  | _ => none

/-- The storage effect of a numpy cast to the decided dtype: integer casts
wrap to the target width, the float32 downcast keeps each (round-trip-checked)
value. -/
def castForDtype (d : Dtype) (c : Cell) : Cell :=
  match d, c with
  | .i8, .int z => .int (wrap 8 z)
  | .i16, .int z => .int (wrap 16 z)
  | .i32, .int z => .int (wrap 32 z)
  | _, c => c

/-- One iteration of the `optimize_dtypes` loop on a single column. -/
def optCol (c : Col) : Col :=
  match optDecision c.dtype c.cells with
  | some d => ⟨c.name, d, c.cells.map (castForDtype d)⟩
  | none => c

/-- `optimize_dtypes` (src/app.py lines 201-220). -/
def optimize_dtypes (df : Frame) : Frame :=
  df.map optCol

/-- Python substring containment `pat in s` over character lists. -/
def hasSubstr : List Char → List Char → Bool
  | pat, [] => pat.isEmpty
  | pat, c :: rest => pat.isPrefixOf (c :: rest) || hasSubstr pat rest

/-- `'Unnamed:' in str(col)` (src/app.py line 254). -/
def isUnnamedName (s : String) : Bool :=
  hasSubstr "Unnamed:".data s.data

/-- The header-recovery trigger `len(unnamed_cols) > len(df.columns) / 2`
(src/app.py line 255; src/flask_app.py line 190), with the float halving
rewritten over integers. -/
def triggerRecovery (df : Frame) : Bool :=
  decide ((frameNames df).length < 2 * (frameNames df).countP isUnnamedName)

/-- One iteration of the header-search loop (src/app.py lines 259-265): at
least 2 non-missing cells, and some non-missing cell whose `str` is longer
than 2 characters. -/
def goodRow (r : List Cell) : Bool :=
  decide (2 ≤ r.countP (fun c => !c.isNa)) &&
    r.any (fun c => !c.isNa && decide (2 < (cellStr c).length))

/-- The `for idx, row in df_raw.iterrows()` search with its `break`. -/
def findGo : List (List Cell) → Nat → Option Nat
  | [], _ => none
  | r :: rest, i => if goodRow r then some i else findGo rest (i + 1)

/-- Search the header-less re-parse of the first 10 raw rows for the first
qualifying header row (src/app.py lines 257-265). -/
def findHeaderRow (t : RawTable) : Option Nat :=
  findGo (t.take 10) 0

/-- The header-detection stage of `read_excel_optimized` (src/app.py lines
250-271): parse with the assumed header at row 0; if most column names are
placeholders, search the first 10 raw rows and re-parse from the found header
row when its index is positive, otherwise keep the original parse. -/
def excelHeaderStage (t : RawTable) : Frame :=
  let df0 := parseTable t 0 MAX_ROWS
  if triggerRecovery df0 then
    match findHeaderRow t with
    | some h => if 0 < h then parseTable t h MAX_ROWS else df0
    | none => df0
  else df0

/-- `read_excel_optimized` on a readable source, non-preview path (src/app.py
lines 248-274): header handling, then the two cleaning passes, then the dtype
optimizer. -/
def read_excel_optimized (t : RawTable) : Frame :=
  optimize_dtypes (dropEmpty (excelHeaderStage t))

/-- Split a list into consecutive chunks of `n` (the reader's `chunksize`
iterator). -/
def chunksOf {α : Type} : Nat → List α → List (List α)
  | _, [] => []
  | 0, _ :: _ => []
  | n + 1, x :: xs =>
    (x :: xs).take (n + 1) :: chunksOf (n + 1) ((x :: xs).drop (n + 1))
termination_by _ l => l.length
decreasing_by
  rw [List.length_drop]
  simp only [List.length_cons]
  omega

/-- Per-chunk processing of the CSV reader (src/app.py lines 230-232): parse
the chunk under the shared header, drop empty columns then empty rows, and
optimize dtypes. -/
def processChunk (hdr : List Cell) (c : List (List Cell)) : Frame :=
  optimize_dtypes (dropEmpty (parseTable (hdr :: c) 0 c.length))

/-- numpy/pandas common-dtype promotion used when chunks are concatenated. -/
def promote (a b : Dtype) : Dtype :=
  match a, b with
  | .obj, _ | _, .obj | .other, _ | _, .other => .obj
  | .f64, _ | _, .f64 => .f64
  | .f32, .i32 | .i32, .f32 | .f32, .i64 | .i64, .f32 => .f64
  | .f32, _ | _, .f32 => .f32
  | .i64, _ | _, .i64 => .i64
  | .i32, _ | _, .i32 => .i32
  | .i16, _ | _, .i16 => .i16
  | .i8, .i8 => .i8

/-- The dtype a frame contributes for column `n` in a concatenation: its own
dtype if present, otherwise the float64 of the all-NaN reindex block. -/
def concatDtypeOf (f : Frame) (n : String) : Dtype :=
  match f.find? (fun c => c.name == n) with
  | some c => c.dtype
  | none => .f64

/-- The cells a frame contributes for column `n` in a concatenation. -/
def concatCellsOf (f : Frame) (n : String) : List Cell :=
  match f.find? (fun c => c.name == n) with
  | some c => c.cells
  | none => List.replicate (numRows f) Cell.na

/-- `pd.concat(chunks, ignore_index=True)`: columns aligned on the union of
names in first-appearance order, cells stacked (missing blocks filled with
NaN), dtypes promoted. -/
def concatFrames (fs : List Frame) : Frame :=
  let names := fs.foldl
    (fun acc f => acc ++ (frameNames f).filter (fun n => !acc.contains n)) []
  names.map (fun n =>
    ⟨n, (fs.map (fun f => concatDtypeOf f n)).foldr promote .i8,
      (fs.map (fun f => concatCellsOf f n)).flatten⟩)

/-- The accumulation loop of `read_csv_chunked` (src/app.py lines 230-239):
each chunk is processed and appended, the running row total updated, and the
loop breaks once the total reaches `MAX_ROWS`. -/
def csvLoop (hdr : List Cell) :
    List (List (List Cell)) → Nat → List Frame → List Frame
  | [], _, acc => acc
  | c :: rest, total, acc =>
    let p := processChunk hdr c
    let tot := total + numRows p
    if MAX_ROWS ≤ tot then acc ++ [p] else csvLoop hdr rest tot (acc ++ [p])

/-- `read_csv_chunked` on a readable source, non-preview path (src/app.py
lines 222-246): the first raw row is the header, the data rows stream in
chunks of `CHUNK_SIZE`, and the kept chunks are concatenated (an empty chunk
list yields an empty frame). -/
def read_csv_chunked (t : RawTable) : Frame :=
  match t with
  | [] => []
  | hdr :: data =>
    let frames := csvLoop hdr (chunksOf CHUNK_SIZE data) 0 []
    if frames.isEmpty then [] else concatFrames frames

/-- The characters after the last dot of a reversed character list (helper for
`rsplit('.', 1)[1]`, reading from the end). -/
def extGo : List Char → List Char
  | [] => []
  | c :: rest => if c = '.' then [] else c :: extGo rest

/-- `filename.rsplit('.', 1)[1]`: the extension after the last dot (meaningful
under the `'.' in filename` guard). -/
def extOf (l : List Char) : List Char :=
  (extGo l.reverse).reverse

/-- `allowed_file` (src/app.py lines 279-280; src/flask_app.py lines 57-58):
a dot is present and the lowercased extension is xlsx, xls or csv. -/
def allowed_file (fname : String) : Bool :=
  fname.data.contains '.' &&
    (let e := (extOf fname.data).map Char.toLower
     e == "xlsx".data || e == "xls".data || e == "csv".data)

/-- `filename.endswith('.csv')` — the case-sensitive dispatch test
(src/app.py line 292; src/flask_app.py line 177). -/
def endsWithCsv (fname : String) : Bool :=
  List.isPrefixOf ".csv".data.reverse fname.data.reverse

/-- `filename.endswith('.xlsx') or filename.endswith('.xls')`
(src/app.py line 311; src/flask_app.py line 271). -/
def isExcelName (fname : String) : Bool :=
  List.isPrefixOf ".xlsx".data.reverse fname.data.reverse ||
    List.isPrefixOf ".xls".data.reverse fname.data.reverse

/-- Which reader an accepted upload is dispatched to. -/
inductive ParserKind where
  | csv | excel
deriving DecidableEq, Repr

/-- The `if uploaded_file.name.endswith('.csv') ... else ...` dispatch
(src/app.py lines 292-295). -/
def parserFor (fname : String) : ParserKind :=
  if endsWithCsv fname then .csv else .excel

/-- One entry of the recent-uploads history (src/app.py lines 305-312). -/
structure UploadRecord where
  filename : String
  uploadTime : Nat
  fileSize : Nat
  rowCount : Nat
  columnCount : Nat
  isExcel : Bool
deriving DecidableEq, Repr

/-- The history update on a successful ingestion (src/app.py lines 313-315):
drop any record with the same filename, push the new record to the front, and
keep the first 10. -/
def updateHistory (hist : List UploadRecord) (u : UploadRecord) :
    List UploadRecord :=
  (u :: hist.filter (fun r => !(r.filename == u.filename))).take 10

/-- The session-scoped state the upload handler owns (src/app.py lines
31-42). -/
structure SessionState where
  df : Option Frame
  filename : Option String
  fileSize : Nat
  rowsLimited : Bool
  isPreview : Bool
  recentUploads : List UploadRecord
deriving DecidableEq, Repr

/-- An upload: declared name, declared byte size, and the raw grid the readers
would obtain from its bytes — `none` when parsing raises (the readers catch
the exception and return an empty frame, src/app.py lines 244-246, 275-277). -/
structure UploadedFile where
  name : String
  sizeBytes : Nat
  content : Option RawTable
deriving Repr

/-- The CSV reader at the upload boundary. -/
def readFileCsv (f : UploadedFile) : Frame :=
  match f.content with
  | none => []
  | some t => read_csv_chunked t

/-- The Excel reader at the upload boundary. -/
def readFileExcel (f : UploadedFile) : Frame :=
  match f.content with
  | none => []
  | some t => read_excel_optimized t

/-- `process_uploaded_file` (src/app.py lines 282-319), non-preview path, as a
transition on the session state: validation and parsing happen before any
state mutation, and each failure returns `none` leaving the state as given.
`now` stands for `datetime.now()`. -/
def ingestFrame (f : UploadedFile) : Frame :=
  match parserFor f.name with
  | .csv => readFileCsv f
  | .excel => readFileExcel f

/-- `process_uploaded_file` (src/app.py lines 282-319), non-preview path, as a
transition on the session state; see the reader-dispatch doc above. -/
def process_uploaded_file (st : SessionState) (f : UploadedFile) (now : Nat) :
    SessionState × Option Frame :=
  if !allowed_file f.name then (st, none)
  else if MAX_FILE_SIZE_MB * 1024 * 1024 < f.sizeBytes then (st, none)
  else if frameEmpty (ingestFrame f) then (st, none)
  else
    ({ df := some (ingestFrame f)
       filename := some f.name
       fileSize := f.sizeBytes
       rowsLimited := decide (MAX_ROWS ≤ numRows (ingestFrame f))
       isPreview := false
       recentUploads := updateHistory st.recentUploads
         ⟨f.name, now, f.sizeBytes, numRows (ingestFrame f),
           (ingestFrame f).length, isExcelName f.name⟩ },
      some (ingestFrame f))

/-- The numeric content pandas sums over a cell (NaN is skipped, i.e. adds
nothing). -/
def cellNum : Cell → Int
  | .int z => z
  | .flt z => z
  | _ => 0

/-- Lexicographic order on character lists by code point (Python's string
order). -/
def strLeB : List Char → List Char → Bool
  | [], _ => true
  | _ :: _, [] => false
  | x :: xs, y :: ys =>
    if x.toNat < y.toNat then true
    else if y.toNat < x.toNat then false
    else strLeB xs ys

/-- A total comparison on cells, modelling the ascending key order pandas
groupby uses (homogeneous key columns in practice: strings sort
lexicographically, numbers numerically). -/
def cellLe (a b : Cell) : Bool :=
  match a, b with
  | .na, _ => true
  | _, .na => false
  | .int x, .int y => decide (x ≤ y)
  | .int _, _ => true
  | _, .int _ => false
  | .flt x, .flt y => decide (x ≤ y)
  | .flt _, _ => true
  | _, .flt _ => false
  | .str x, .str y => strLeB x.data y.data

/-- Insert into a `cellLe`-sorted list. -/
def insertCell (x : Cell) : List Cell → List Cell
  | [] => [x]
  | y :: ys => if cellLe x y then x :: y :: ys else y :: insertCell x ys

/-- Insertion sort by `cellLe`. -/
def sortCells : List Cell → List Cell
  | [] => []
  | x :: xs => insertCell x (sortCells xs)

/-- The (category, value) pairs `groupby(cat_col)[val_col]` ranges over. -/
def groupPairs (df : Frame) (cat val : String) : List (Cell × Cell) :=
  let cc := (df.find? (fun c => c.name == cat)).map Col.cells |>.getD []
  let vc := (df.find? (fun c => c.name == val)).map Col.cells |>.getD []
  cc.zip vc

/-- First-occurrence deduplication of cells (kernel-reducible). -/
def dedupCells : List Cell → List Cell
  | [] => []
  | x :: xs => x :: (dedupCells xs).filter (fun y => !(y == x))

/-- The summed value of one group. -/
def groupSum (pairs : List (Cell × Cell)) (k : Cell) : Int :=
  ((pairs.filter (fun p => p.1 == k)).map (fun p => cellNum p.2)).sum

/-- `df.groupby(cat_col)[val_col].sum().reset_index()` (src/flask_app.py line
424; src/app.py line 595): rows with a missing key are dropped, the remaining
distinct keys are listed in ascending order, and the value column is summed
within each group. -/
def pieData (df : Frame) (cat val : String) : List (Cell × Int) :=
  let pairs := groupPairs df cat val
  let keys := sortCells (dedupCells (pairs.filterMap
    (fun p => if p.1.isNa then none else some p.1)))
  keys.map (fun k => (k, groupSum pairs k))

/-- How a value of a column with dtype `d` is written back out to a file
(ints in float columns print as floats; NaN becomes an empty cell). -/
def serializeCell (d : Dtype) (c : Cell) : Cell :=
  match d, c with
  | _, .na => .na
  | .f32, .int z => .flt z
  | .f64, .int z => .flt z
  | _, c => c

/-- Row `i` of a frame as written out. -/
def serializeRow (df : Frame) (i : Nat) : List Cell :=
  df.map (fun c => serializeCell c.dtype (c.cells.getD i Cell.na))

/-- Writing a frame back to a spreadsheet/CSV grid: a header row holding the
column names, then the data rows. -/
def serializeDF (df : Frame) : RawTable :=
  (df.map (fun c => Cell.str c.name)) ::
    (List.range (numRows df)).map (serializeRow df)

/-! ### Specification-side definitions (stated from the claims' wording) -/

/-- The narrowest of the widths 8/16/32 whose `np.iinfo` range strictly
contains `[m, M]` (claim C2's wording). -/
def narrowestFitWidth (m M : Int) : Option Nat :=
  [8, 16, 32].find? (fun w => decide (intMin w < m ∧ M < intMax w))

/-- The signed integer dtype of a given bit width. -/
def widthDtype (w : Nat) : Dtype :=
  if w = 8 then .i8 else if w = 16 then .i16 else if w = 32 then .i32 else .i64

/-- Claim C1's wording of a qualifying header row: at least 2 non-missing
cells and at least one (non-missing) cell whose string form is longer than 2
characters. -/
def claimGoodRow (r : List Cell) : Prop :=
  2 ≤ r.countP (fun c => !c.isNa) ∧
    ∃ c ∈ r, c.isNa = false ∧ 2 < (cellStr c).length

/-! ### General helper lemmas -/

theorem wrap_eq_self (w : Nat) (hw : 1 ≤ w) (z : Int)
    (h1 : -(2 ^ (w - 1)) ≤ z) (h2 : z ≤ 2 ^ (w - 1) - 1) : wrap w z = z := by
  unfold wrap
  have hp : (2 : Int) ^ w = 2 ^ (w - 1) * 2 := by
    rw [← pow_succ]
    congr 1
    omega
  have hpos : (0 : Int) < 2 ^ (w - 1) := by positivity
  rw [Int.emod_eq_of_lt (by omega) (by omega)]
  omega

theorem int_min?_le {l : List Int} {m z : Int} (hm : l.min? = some m)
    (hz : z ∈ l) : m ≤ z :=
  ((List.le_min?_iff (fun _ _ _ => le_min_iff) hm).mp (le_refl m)) z hz

theorem int_le_max? {l : List Int} {M z : Int} (hM : l.max? = some M)
    (hz : z ∈ l) : z ≤ M :=
  ((List.max?_le_iff (fun _ _ _ => max_le_iff) hM).mp (le_refl M)) z hz

/-! ### Dtype optimizer lemmas -/

theorem castForDtype_f32 (c : Cell) : castForDtype .f32 c = c := by
  cases c <;> rfl

theorem optCol_name (c : Col) : (optCol c).name = c.name := by
  unfold optCol
  cases optDecision c.dtype c.cells <;> rfl

/-- The optimizer never alters a stored value: an integer cast is only issued
when the column's range strictly fits the target width, where the wrap-around
is the identity, and the float downcast is value-preserving by construction. -/
theorem optCol_cells (c : Col) : (optCol c).cells = c.cells := by
  unfold optCol
  cases hdec : optDecision c.dtype c.cells with
  | none => rfl
  | some d =>
    show c.cells.map (castForDtype d) = c.cells
    have hcast : ∀ x ∈ c.cells, castForDtype d x = x := by
      intro x hx
      unfold optDecision at hdec
      cases hdt : c.dtype <;> rw [hdt] at hdec
      case f32 => exact Option.noConfusion hdec
      case obj => exact Option.noConfusion hdec
      case other => exact Option.noConfusion hdec
      case f64 =>
        have hif : (if c.cells.all f32RepCell = true then some Dtype.f32
            else none) = some d := hdec
        by_cases hall : c.cells.all f32RepCell = true
        · rw [if_pos hall] at hif
          cases hif
          exact castForDtype_f32 x
        · rw [if_neg hall] at hif
          exact Option.noConfusion hif
      all_goals {
        rcases hmm : (c.cells.filterMap cellInt).min? with _ | m <;>
          rw [hmm] at hdec
        · exact Option.noConfusion hdec
        rcases hMM : (c.cells.filterMap cellInt).max? with _ | M <;>
          rw [hMM] at hdec
        · exact Option.noConfusion hdec
        have hif : (if intMin 8 < m ∧ M < intMax 8 then some Dtype.i8
            else if intMin 16 < m ∧ M < intMax 16 then some Dtype.i16
            else if intMin 32 < m ∧ M < intMax 32 then some Dtype.i32
            else none) = some d := hdec
        clear hdec
        cases x with
        | na => cases d <;> rfl
        | str s => cases d <;> rfl
        | flt z => cases d <;> rfl
        | int z =>
          have hzmem : z ∈ c.cells.filterMap cellInt :=
            List.mem_filterMap.mpr ⟨Cell.int z, hx, rfl⟩
          have hmz : m ≤ z := int_min?_le hmm hzmem
          have hzM : z ≤ M := int_le_max? hMM hzmem
          by_cases h8 : intMin 8 < m ∧ M < intMax 8
          · rw [if_pos h8] at hif
            cases hif
            show Cell.int (wrap 8 z) = Cell.int z
            have e1 : intMin 8 = -(2 ^ 7) := rfl
            have e2 : intMax 8 = 2 ^ 7 - 1 := rfl
            rw [e1] at h8
            rw [e2] at h8
            rw [wrap_eq_self 8 (by omega) z (by omega) (by omega)]
          · rw [if_neg h8] at hif
            by_cases h16 : intMin 16 < m ∧ M < intMax 16
            · rw [if_pos h16] at hif
              cases hif
              show Cell.int (wrap 16 z) = Cell.int z
              have e1 : intMin 16 = -(2 ^ 15) := rfl
              have e2 : intMax 16 = 2 ^ 15 - 1 := rfl
              rw [e1] at h16
              rw [e2] at h16
              rw [wrap_eq_self 16 (by omega) z (by omega) (by omega)]
            · rw [if_neg h16] at hif
              by_cases h32 : intMin 32 < m ∧ M < intMax 32
              · rw [if_pos h32] at hif
                cases hif
                show Cell.int (wrap 32 z) = Cell.int z
                have e1 : intMin 32 = -(2 ^ 31) := rfl
                have e2 : intMax 32 = 2 ^ 31 - 1 := rfl
                rw [e1] at h32
                rw [e2] at h32
                rw [wrap_eq_self 32 (by omega) z (by omega) (by omega)]
              · rw [if_neg h32] at hif
                exact Option.noConfusion hif
      }
    calc c.cells.map (castForDtype d)
        = c.cells.map id := List.map_congr_left hcast
      _ = c.cells := List.map_id c.cells

theorem optimize_names (df : Frame) :
    frameNames (optimize_dtypes df) = frameNames df := by
  unfold optimize_dtypes frameNames
  rw [List.map_map]
  exact List.map_congr_left (fun c _ => optCol_name c)

theorem optimize_numRows (df : Frame) :
    numRows (optimize_dtypes df) = numRows df := by
  cases df with
  | nil => rfl
  | cons c cs =>
    show (optCol c).cells.length = c.cells.length
    rw [optCol_cells]

/-- The decision of the optimizer on an integer column, written as the
source's if-chain over the column's min and max. -/
theorem optDecision_int (d : Dtype) (cells : List Cell) (m M : Int)
    (hd : d.isIntKind = true)
    (hm : (cells.filterMap cellInt).min? = some m)
    (hM : (cells.filterMap cellInt).max? = some M) :
    optDecision d cells =
      (if intMin 8 < m ∧ M < intMax 8 then some Dtype.i8
       else if intMin 16 < m ∧ M < intMax 16 then some Dtype.i16
       else if intMin 32 < m ∧ M < intMax 32 then some Dtype.i32
       else none) := by
  cases d
  case f32 => exact Bool.noConfusion hd
  case f64 => exact Bool.noConfusion hd
  case obj => exact Bool.noConfusion hd
  case other => exact Bool.noConfusion hd
  all_goals simp only [optDecision, hm, hM]

/-- C2: Dtype Optimizer.  For an integer-kind column with minimum `m` and
maximum `M`, the values are unchanged by the cast, and the resulting dtype is
the narrowest of the 8/16/32-bit signed widths whose `np.iinfo` range
strictly contains `[m, M]` (the first fitting width in ascending order), the
original dtype when `[m, M]` does not strictly fit 32 bits. -/
theorem C2_dtype_optimizer (name : String) (d : Dtype) (cells : List Cell)
    (m M : Int) (hd : d.isIntKind = true)
    (hm : (cells.filterMap cellInt).min? = some m)
    (hM : (cells.filterMap cellInt).max? = some M) :
    (optCol ⟨name, d, cells⟩).cells = cells ∧
    (optCol ⟨name, d, cells⟩).dtype =
      (match narrowestFitWidth m M with
       | some w => widthDtype w
       | none => d) := by
  constructor
  · exact optCol_cells ⟨name, d, cells⟩
  · have hdec := optDecision_int d cells m M hd hm hM
    simp only [optCol, hdec]
    unfold narrowestFitWidth
    by_cases h8 : intMin 8 < m ∧ M < intMax 8
    · rw [if_pos h8]
      simp [List.find?, h8, widthDtype]
    · rw [if_neg h8]
      by_cases h16 : intMin 16 < m ∧ M < intMax 16
      · rw [if_pos h16]
        simp [List.find?, h8, h16, widthDtype]
      · rw [if_neg h16]
        by_cases h32 : intMin 32 < m ∧ M < intMax 32
        · rw [if_pos h32]
          simp [List.find?, h8, h16, h32, widthDtype]
        · rw [if_neg h32]
          simp [List.find?, h8, h16, h32]

/-- Witness for C2 at the spec's example: an int64 column with values in
`[0, 100]` keeps its values and lands on the narrowest width, 8 bits. -/
theorem C2_dtype_optimizer_witness :
    (optCol ⟨"A", .i64, [Cell.int 0, Cell.int 100]⟩).cells =
        [Cell.int 0, Cell.int 100] ∧
    (optCol ⟨"A", .i64, [Cell.int 0, Cell.int 100]⟩).dtype =
      (match narrowestFitWidth 0 100 with
       | some w => widthDtype w
       | none => Dtype.i64) :=
  C2_dtype_optimizer "A" .i64 [Cell.int 0, Cell.int 100] 0 100
    (by decide) (by decide) (by decide)

/-- C10: frame effect of the optimizer.  Column names and order, the row
count, and the contents of every column are preserved; object columns and
columns whose aggregation raises (`other`) come back exactly as given; a
column whose dtype changes must have been a non-object numeric column. -/
theorem C10_optimize_frame_effect (df : Frame) :
    frameNames (optimize_dtypes df) = frameNames df ∧
    numRows (optimize_dtypes df) = numRows df ∧
    (∀ c ∈ df, (c.dtype = .obj ∨ c.dtype = .other) → optCol c = c) ∧
    (∀ c ∈ df, (optCol c).cells = c.cells) ∧
    (∀ c ∈ df, (optCol c).dtype ≠ c.dtype →
      c.dtype.isNumeric = true ∧ c.dtype ≠ .obj) := by
  refine ⟨optimize_names df, optimize_numRows df, ?_, ?_, ?_⟩
  · intro c _ hc
    unfold optCol
    have : optDecision c.dtype c.cells = none := by
      rcases hc with hc | hc <;> rw [hc] <;> rfl
    rw [this]
  · intro c _
    exact optCol_cells c
  · intro c _ hne
    unfold optCol at hne
    cases hdec : optDecision c.dtype c.cells with
    | none => rw [hdec] at hne; exact absurd rfl hne
    | some dd =>
      unfold optDecision at hdec
      cases hdt : c.dtype <;> rw [hdt] at hdec
      case obj => exact Option.noConfusion hdec
      case other => exact Option.noConfusion hdec
      all_goals exact ⟨rfl, by simp⟩

/-- Witness for C10: a concrete object column survives the optimizer
untouched, and the frame shape of a mixed frame is preserved. -/
theorem C10_optimize_frame_effect_witness :
    optCol ⟨"B", .obj, [Cell.str "x", Cell.na]⟩ =
      ⟨"B", .obj, [Cell.str "x", Cell.na]⟩ ∧
    frameNames (optimize_dtypes [⟨"A", Dtype.i64, [Cell.int 5]⟩,
        ⟨"B", .obj, [Cell.str "x", Cell.na]⟩]) = ["A", "B"] := by
  constructor
  · exact (C10_optimize_frame_effect
      [⟨"B", .obj, [Cell.str "x", Cell.na]⟩]).2.2.1 _ (by simp) (Or.inl rfl)
  · exact (C10_optimize_frame_effect [⟨"A", Dtype.i64, [Cell.int 5]⟩,
      ⟨"B", .obj, [Cell.str "x", Cell.na]⟩]).1

/-! ### C4: error atomicity of the upload handler -/

/-- C4: every failing upload (unsupported extension, size over the 50 MB
maximum, parse failure — the readers return an empty frame on error — or an
empty-after-cleaning dataset) reports `none` and leaves the entire prior
session state (dataset, filename, upload history, flags) exactly as it was. -/
theorem C4_error_atomicity (st : SessionState) (f : UploadedFile) (now : Nat)
    (hfail : (process_uploaded_file st f now).2 = none) :
    (process_uploaded_file st f now).1 = st := by
  unfold process_uploaded_file at hfail ⊢
  split_ifs at hfail ⊢
  all_goals rfl

/-- Witness for C4: a rejected `.txt` upload fails and leaves a populated
session state untouched. -/
theorem C4_error_atomicity_witness :
    (process_uploaded_file
        ⟨some [⟨"A", .i64, [Cell.int 1]⟩], some "old.csv", 3, false, false, []⟩
        ⟨"bad.txt", 0, none⟩ 0).2 = none ∧
    (process_uploaded_file
        ⟨some [⟨"A", .i64, [Cell.int 1]⟩], some "old.csv", 3, false, false, []⟩
        ⟨"bad.txt", 0, none⟩ 0).1 =
      ⟨some [⟨"A", .i64, [Cell.int 1]⟩], some "old.csv", 3, false, false, []⟩ :=
  ⟨rfl, C4_error_atomicity _ _ 0 rfl⟩

/-! ### C9: extension validation vs. parser dispatch -/

/-- C9: file-type validation lowercases the extension, so every case variant
of `.csv` is accepted, but the reader dispatch tests `endswith('.csv')`
case-sensitively: a filename ending in any non-lowercase variant of `.csv`
passes validation yet is dispatched to the Excel reader. -/
theorem C9_extension_dispatch (pre : List Char) (c1 c2 c3 : Char)
    (h1 : c1.toLower = 'c') (h2 : c2.toLower = 's') (h3 : c3.toLower = 'v')
    (hne : ¬(c1 = 'c' ∧ c2 = 's' ∧ c3 = 'v')) :
    allowed_file (String.mk (pre ++ ['.', c1, c2, c3])) = true ∧
    parserFor (String.mk (pre ++ ['.', c1, c2, c3])) = ParserKind.excel := by
  have hc1 : c1 ≠ '.' := by
    intro h
    rw [h] at h1
    exact absurd h1 (by decide)
  have hc2 : c2 ≠ '.' := by
    intro h
    rw [h] at h2
    exact absurd h2 (by decide)
  have hc3 : c3 ≠ '.' := by
    intro h
    rw [h] at h3
    exact absurd h3 (by decide)
  have hrev : (pre ++ ['.', c1, c2, c3]).reverse =
      c3 :: c2 :: c1 :: '.' :: pre.reverse := by
    rw [List.reverse_append]
    rfl
  have hext : extOf (pre ++ ['.', c1, c2, c3]) = [c1, c2, c3] := by
    unfold extOf
    rw [hrev]
    unfold extGo
    rw [if_neg hc3]
    unfold extGo
    rw [if_neg hc2]
    unfold extGo
    rw [if_neg hc1]
    unfold extGo
    rw [if_pos rfl]
    rfl
  constructor
  · unfold allowed_file
    have hdot : (pre ++ ['.', c1, c2, c3]).contains '.' = true := by
      have h : '.' ∈ pre ++ ['.', c1, c2, c3] := by simp
      simp [h]
    show ((pre ++ ['.', c1, c2, c3]).contains '.' && _) = true
    rw [hdot]
    simp only [Bool.true_and]
    rw [hext]
    simp only [List.map_cons, List.map_nil, h1, h2, h3]
    rfl
  · unfold parserFor
    have : endsWithCsv (String.mk (pre ++ ['.', c1, c2, c3])) = false := by
      unfold endsWithCsv
      show List.isPrefixOf ['v', 's', 'c', '.']
        ((pre ++ ['.', c1, c2, c3]).reverse) = false
      rw [hrev]
      by_cases e3 : c3 = 'v'
      · by_cases e2 : c2 = 's'
        · by_cases e1 : c1 = 'c'
          · exact absurd ⟨e1, e2, e3⟩ hne
          · simp [List.isPrefixOf, e3, e2, Ne.symm e1]
        · simp [List.isPrefixOf, e3, Ne.symm e2]
      · simp [List.isPrefixOf, Ne.symm e3]
    rw [if_neg (by rw [this]; exact Bool.false_ne_true)]

/-- Witness for C9 at the filename `data.CSV`. -/
theorem C9_extension_dispatch_witness :
    allowed_file (String.mk ("data".data ++ ['.', 'C', 'S', 'V'])) = true ∧
    parserFor (String.mk ("data".data ++ ['.', 'C', 'S', 'V'])) =
      ParserKind.excel :=
  C9_extension_dispatch "data".data 'C' 'S' 'V'
    (by decide) (by decide) (by decide) (by decide)

/-! ### C8: the recent-uploads history -/

/-- A pre-existing history record. -/
def exRecOld : UploadRecord := ⟨"a.csv", 0, 100, 5, 2, false⟩

/-- A fresh record for the same filename. -/
def exRecNew : UploadRecord := ⟨"a.csv", 1, 100, 7, 2, false⟩

/-- Counterexample to C8 as stated: with a one-element history (far below the
cap of 10), ingesting a file with the same name evicts the existing record,
so records are not removed only when the cap would be exceeded. -/
theorem C8_counterexample :
    exRecOld ∈ [exRecOld] ∧ ([exRecOld] : List UploadRecord).length + 1 ≤ 10 ∧
    exRecOld ∉ updateHistory [exRecOld] exRecNew := by
  refine ⟨by simp, by simp, ?_⟩
  decide

/-- C8 (amended): the history update is bounded by 10, most-recent-first with
the new record at the front, an order-preserving selection of the old records
(so existing records are never mutated), every entry is the new record or an
old one, and — as long as the cap is not reached — a record is only removed
when the new upload carries the same filename. -/
theorem C8_history_invariant (hist : List UploadRecord) (u : UploadRecord) :
    (updateHistory hist u).length ≤ 10 ∧
    (updateHistory hist u).head? = some u ∧
    (updateHistory hist u).tail.Sublist hist ∧
    (∀ r ∈ updateHistory hist u, r = u ∨ r ∈ hist) ∧
    (hist.length ≤ 9 → ∀ r ∈ hist, r.filename ≠ u.filename →
      r ∈ updateHistory hist u) := by
  have hfil : (hist.filter (fun r => !(r.filename == u.filename))).Sublist hist :=
    List.filter_sublist hist
  have htake : updateHistory hist u =
      u :: (hist.filter (fun r => !(r.filename == u.filename))).take 9 := by
    unfold updateHistory
    rfl
  refine ⟨?_, ?_, ?_, ?_, ?_⟩
  · rw [htake]
    simp only [List.length_cons]
    have := List.length_take_le 9
      (hist.filter (fun r => !(r.filename == u.filename)))
    omega
  · rw [htake]
    rfl
  · rw [htake]
    exact ((List.take_sublist 9 _).trans hfil)
  · intro r hr
    rw [htake] at hr
    rcases List.mem_cons.mp hr with h | h
    · exact Or.inl h
    · exact Or.inr (hfil.mem (List.mem_of_mem_take h))
  · intro hlen r hr hfn
    rw [htake]
    have hmem : r ∈ hist.filter (fun r => !(r.filename == u.filename)) := by
      rw [List.mem_filter]
      exact ⟨hr, by simp [hfn]⟩
    have hflen : (hist.filter (fun r => !(r.filename == u.filename))).length ≤ 9 :=
      le_trans (List.length_filter_le _ _) hlen
    rw [List.take_of_length_le hflen]
    exact List.mem_cons_of_mem u hmem

/-- Witness for C8: with a below-cap history and a distinct filename, the old
record survives and the new one heads the list. -/
theorem C8_history_invariant_witness :
    (updateHistory [exRecOld] ⟨"b.csv", 2, 1, 1, 1, false⟩).head? =
      some ⟨"b.csv", 2, 1, 1, 1, false⟩ ∧
    exRecOld ∈ updateHistory [exRecOld] ⟨"b.csv", 2, 1, 1, 1, false⟩ :=
  ⟨(C8_history_invariant [exRecOld] _).2.1,
    (C8_history_invariant [exRecOld] ⟨"b.csv", 2, 1, 1, 1, false⟩).2.2.2.2
      (by simp) exRecOld (by simp) (by decide)⟩

/-! ### C1 and C7: header recovery -/

theorem findGo_eq_findIdx (l : List (List Cell)) (i : Nat) :
    findGo l i = l.findIdx? goodRow i := by
  induction l generalizing i with
  | nil => rfl
  | cons r rest ih =>
    show (if goodRow r then some i else findGo rest (i + 1)) = _
    rw [List.findIdx?_cons, ih]

theorem findHeaderRow_eq (t : RawTable) :
    findHeaderRow t = (t.take 10).findIdx? goodRow := by
  unfold findHeaderRow
  exact findGo_eq_findIdx (t.take 10) 0

/-- The loop predicate agrees with the claim's wording of a qualifying header
row. -/
theorem goodRow_iff_claim (r : List Cell) :
    goodRow r = true ↔ claimGoodRow r := by
  unfold goodRow claimGoodRow
  rw [Bool.and_eq_true, List.any_eq_true]
  constructor
  · rintro ⟨hc, c, hmem, hgood⟩
    rw [Bool.and_eq_true] at hgood
    exact ⟨by simpa using hc, c, hmem,
      by simpa using hgood.1, by simpa using hgood.2⟩
  · rintro ⟨hc, c, hmem, hna, hlen⟩
    exact ⟨by simpa using hc, c, hmem,
      by rw [Bool.and_eq_true]; exact ⟨by simp [hna], by simpa using hlen⟩⟩

/-- C1: header recovery.  Whenever more than half of the parsed column names
are placeholder names, the raw source is searched without a header over at
most its first 10 rows; the first row with at least 2 non-missing cells and a
non-missing cell printing longer than 2 characters is the chosen header row;
if it is found at a positive index the source is re-parsed with that header
row, and otherwise (found at row 0, or not found) the original
placeholder-named parse is kept, without error. -/
theorem C1_header_recovery (t : RawTable)
    (htrig : triggerRecovery (parseTable t 0 MAX_ROWS) = true) :
    (∀ r : List Cell, goodRow r = true ↔ claimGoodRow r) ∧
    (match (t.take 10).findIdx? goodRow with
     | some h => (0 < h → excelHeaderStage t = parseTable t h MAX_ROWS) ∧
         (h = 0 → excelHeaderStage t = parseTable t 0 MAX_ROWS)
     | none => excelHeaderStage t = parseTable t 0 MAX_ROWS) := by
  refine ⟨goodRow_iff_claim, ?_⟩
  unfold excelHeaderStage
  rw [if_pos htrig, findHeaderRow_eq]
  cases hf : (t.take 10).findIdx? goodRow with
  | none => rfl
  | some h =>
    refine ⟨fun h0 => ?_, fun h0 => ?_⟩
    · show (if 0 < h then parseTable t h MAX_ROWS
        else parseTable t 0 MAX_ROWS) = parseTable t h MAX_ROWS
      rw [if_pos h0]
    · subst h0
      show (if 0 < 0 then parseTable t 0 MAX_ROWS
        else parseTable t 0 MAX_ROWS) = parseTable t 0 MAX_ROWS
      rw [if_neg (lt_irrefl 0)]

/-- A malformed sheet: an all-blank first row, a proper header row at index 1,
then data. -/
def exT1 : RawTable :=
  [[Cell.na, Cell.na],
   [Cell.str "Name", Cell.str "Age"],
   [Cell.str "bob", Cell.int 2]]

/-- Witness for C1: on `exT1` the trigger fires, the search finds row 1, and
the stage re-parses with header row 1. -/
theorem C1_header_recovery_witness :
    triggerRecovery (parseTable exT1 0 MAX_ROWS) = true ∧
    (exT1.take 10).findIdx? goodRow = some 1 ∧
    excelHeaderStage exT1 = parseTable exT1 1 MAX_ROWS := by
  refine ⟨by decide, by decide, ?_⟩
  have h := (C1_header_recovery exT1 (by decide)).2
  rw [show (exT1.take 10).findIdx? goodRow = some 1 from by decide] at h
  exact h.1 (by decide)

/-- A raw grid with a single (placeholder-named) column. -/
def exT7 : RawTable := [[Cell.na], [Cell.int 5], [Cell.str "abc"]]

/-- Counterexample to C7 as stated: a parsed table with a single column can
perfectly well fire the recovery trigger (1 placeholder name out of 1 is more
than half) — there is no `< 2 columns` guard at the caller. -/
theorem C7_counterexample :
    (parseTable exT7 0 MAX_ROWS).length ≤ 1 ∧
    triggerRecovery (parseTable exT7 0 MAX_ROWS) = true := by
  exact ⟨by decide, by decide⟩

theorem findGo_none {l : List (List Cell)}
    (h : ∀ r ∈ l, goodRow r = false) : ∀ i, findGo l i = none := by
  induction l with
  | nil => intro i; rfl
  | cons r rest ih =>
    intro i
    unfold findGo
    rw [h r (List.mem_cons_self r rest)]
    exact ih (fun s hs => h s (List.mem_cons_of_mem r hs)) (i + 1)

/-- C7 (amended): there is no column-count guard, and the recovery re-parse
does run on single-column tables whose name is a placeholder; but on any
source whose rows all have fewer than 2 cells no row can qualify (a qualifying
row needs at least 2 non-missing cells), so the header stage always returns
the original parse unchanged. -/
theorem C7_narrow_table_recovery (t : RawTable)
    (hnarrow : ∀ r ∈ t, r.length ≤ 1) :
    excelHeaderStage t = parseTable t 0 MAX_ROWS := by
  unfold excelHeaderStage
  by_cases htrig : triggerRecovery (parseTable t 0 MAX_ROWS) = true
  · rw [if_pos htrig]
    have hnone : findHeaderRow t = none := by
      unfold findHeaderRow
      refine findGo_none (fun r hr => ?_) 0
      have hlen : r.length ≤ 1 := hnarrow r (List.mem_of_mem_take hr)
      have hcount : r.countP (fun c => !c.isNa) ≤ 1 :=
        le_trans (List.countP_le_length _) hlen
      unfold goodRow
      rw [decide_eq_false (by omega)]
      rfl
    rw [hnone]
  · rw [if_neg htrig]

/-- Witness for C7 (amended) at the single-column grid `exT7`, where the
trigger does fire yet the parse is unchanged. -/
theorem C7_narrow_table_recovery_witness :
    excelHeaderStage exT7 = parseTable exT7 0 MAX_ROWS ∧
    triggerRecovery (parseTable exT7 0 MAX_ROWS) = true :=
  ⟨C7_narrow_table_recovery exT7 (by decide), by decide⟩

/-! ### C5: pie chart aggregation -/

theorem insertCell_perm (x : Cell) (l : List Cell) :
    (insertCell x l).Perm (x :: l) := by
  induction l with
  | nil => exact List.Perm.refl _
  | cons y ys ih =>
    unfold insertCell
    by_cases h : cellLe x y = true
    · rw [if_pos h]
    · rw [if_neg h]
      exact (List.Perm.cons y ih).trans (List.Perm.swap x y ys)

theorem sortCells_perm (l : List Cell) : (sortCells l).Perm l := by
  induction l with
  | nil => exact List.Perm.refl _
  | cons x xs ih =>
    exact (insertCell_perm x (sortCells xs)).trans (List.Perm.cons x ih)

theorem mem_sortCells {k : Cell} {l : List Cell} :
    k ∈ sortCells l ↔ k ∈ l :=
  (sortCells_perm l).mem_iff

theorem mem_dedupCells {k : Cell} : ∀ {l : List Cell},
    k ∈ dedupCells l ↔ k ∈ l := by
  intro l
  induction l with
  | nil => exact Iff.rfl
  | cons x xs ih =>
    unfold dedupCells
    constructor
    · intro h
      rcases List.mem_cons.mp h with h | h
      · exact h ▸ List.mem_cons_self x xs
      · exact List.mem_cons_of_mem x (ih.mp (List.mem_filter.mp h).1)
    · intro h
      rcases List.mem_cons.mp h with h | h
      · exact h ▸ List.mem_cons_self x _
      · by_cases hx : k = x
        · exact hx ▸ List.mem_cons_self x _
        · refine List.mem_cons_of_mem x (List.mem_filter.mpr ⟨ih.mpr h, ?_⟩)
          simp [hx]

/-- The spec's pie example: `Region=[North,North,South]`,
`Sales=[10,20,5]`. -/
def exPie : Frame :=
  [⟨"Region", .obj, [Cell.str "North", Cell.str "North", Cell.str "South"]⟩,
   ⟨"Sales", .i64, [Cell.int 10, Cell.int 20, Cell.int 5]⟩]

/-- C5: pie chart building.  The pie data is obtained by grouping the rows on
the categorical column's distinct (non-missing) values and summing the numeric
column within each group: every produced slice `(k, s)` has `s` equal to the
sum of the value column over the rows whose category equals `k`, the produced
keys are exactly the distinct non-missing category values, and on the spec's
example the result is `North:30, South:5`. -/
theorem C5_pie_groupby :
    pieData exPie "Region" "Sales" =
      [(Cell.str "North", 30), (Cell.str "South", 5)] ∧
    (∀ (df : Frame) (cat val : String) (k : Cell) (s : Int),
      (k, s) ∈ pieData df cat val →
        s = groupSum (groupPairs df cat val) k) ∧
    (∀ (df : Frame) (cat val : String) (k : Cell),
      (∃ s, (k, s) ∈ pieData df cat val) ↔
        (k.isNa = false ∧ ∃ v, (k, v) ∈ groupPairs df cat val)) := by
  refine ⟨by decide, ?_, ?_⟩
  · intro df cat val k s hmem
    unfold pieData at hmem
    rcases List.mem_map.mp hmem with ⟨k', _, heq⟩
    have hk : k' = k := congrArg Prod.fst heq
    have hs : groupSum (groupPairs df cat val) k' = s := congrArg Prod.snd heq
    rw [hk] at hs
    exact hs.symm
  · intro df cat val k
    unfold pieData
    constructor
    · rintro ⟨s, hmem⟩
      rcases List.mem_map.mp hmem with ⟨k', hk', heq⟩
      have hk : k' = k := congrArg Prod.fst heq
      subst hk
      have hk2 := mem_dedupCells.mp (mem_sortCells.mp hk')
      rcases List.mem_filterMap.mp hk2 with ⟨p, hp, hpe⟩
      by_cases hna : p.1.isNa = true
      · rw [if_pos hna] at hpe
        exact Option.noConfusion hpe
      · rw [if_neg hna] at hpe
        have hpk : p.1 = k' := Option.some.inj hpe
        refine ⟨by rw [← hpk]; exact Bool.not_eq_true _ ▸ (by simpa using hna), ?_⟩
        exact ⟨p.2, by rw [← hpk]; exact hp⟩
    · rintro ⟨hna, v, hv⟩
      refine ⟨groupSum (groupPairs df cat val) k, ?_⟩
      apply List.mem_map.mpr
      refine ⟨k, ?_, rfl⟩
      apply mem_sortCells.mpr
      apply mem_dedupCells.mpr
      apply List.mem_filterMap.mpr
      exact ⟨(k, v), hv, by rw [if_neg (by rw [hna]; exact Bool.false_ne_true)]⟩

/-- Witness for C5: the `North` slice of the example is produced and equals
the grouped sum. -/
theorem C5_pie_groupby_witness :
    (Cell.str "North", (30 : Int)) ∈ pieData exPie "Region" "Sales" ∧
    (30 : Int) = groupSum (groupPairs exPie "Region" "Sales")
      (Cell.str "North") :=
  ⟨by decide, C5_pie_groupby.2.1 exPie "Region" "Sales"
    (Cell.str "North") 30 (by decide)⟩

/-! ### Generic list infrastructure for the pipeline proofs -/

theorem map_range_getD {α β : Type} (l : List α) (d : α) (F : α → β) :
    (List.range l.length).map (fun i => F (l.getD i d)) = l.map F := by
  induction l with
  | nil => rfl
  | cons a as ih =>
    rw [List.length_cons, List.range_succ_eq_map, List.map_cons, List.map_map,
      List.map_cons]
    congr 1

theorem maskFilter_subset {α : Type} {m : List Bool} {l : List α} {x : α}
    (h : x ∈ maskFilter m l) : x ∈ l := by
  unfold maskFilter at h
  rcases List.mem_filterMap.mp h with ⟨p, hp, hpe⟩
  by_cases hb : p.2 = true
  · rw [if_pos hb] at hpe
    cases hpe
    exact (List.of_mem_zip hp).1
  · rw [if_neg hb] at hpe
    exact Option.noConfusion hpe

theorem maskFilter_nil_left {α : Type} (l : List α) :
    maskFilter [] l = [] := by
  unfold maskFilter
  rw [List.zip_nil_right]
  rfl

theorem maskFilter_cons {α : Type} (b : Bool) (m : List Bool) (x : α)
    (l : List α) :
    maskFilter (b :: m) (x :: l) =
      if b then x :: maskFilter m l else maskFilter m l := by
  unfold maskFilter
  rw [List.zip_cons_cons, List.filterMap_cons]
  by_cases hb : b = true
  · subst hb
    rfl
  · rw [Bool.eq_false_iff.mpr hb]
    simp

theorem length_maskFilter {α : Type} :
    ∀ (m : List Bool) (l : List α), m.length = l.length →
      (maskFilter m l).length = m.countP id := by
  intro m
  induction m with
  | nil => intro l _; rw [maskFilter_nil_left]; rfl
  | cons b bs ih =>
    intro l hl
    cases l with
    | nil => exact absurd hl (by simp)
    | cons x xs =>
      rw [maskFilter_cons, List.countP_cons]
      have hlen : bs.length = xs.length := by
        simpa using hl
      by_cases hb : b = true
      · subst hb
        rw [if_pos rfl, List.length_cons, ih xs hlen]
        rfl
      · rw [Bool.eq_false_iff.mpr hb]
        simp only [Bool.false_eq_true, if_false, ih xs hlen, id]
        rfl

theorem length_maskFilter_le {α : Type} (m : List Bool) (l : List α) :
    (maskFilter m l).length ≤ l.length := by
  unfold maskFilter
  calc ((l.zip m).filterMap _).length ≤ (l.zip m).length :=
        List.length_filterMap_le _ _
    _ ≤ l.length := by rw [List.length_zip]; omega

theorem maskFilter_all_true {α : Type} :
    ∀ (m : List Bool) (l : List α), (∀ b ∈ m, b = true) →
      l.length ≤ m.length → maskFilter m l = l := by
  intro m
  induction m with
  | nil =>
    intro l _ hl
    rw [List.length_nil, Nat.le_zero, List.length_eq_zero] at hl
    subst hl
    rfl
  | cons b bs ih =>
    intro l hall hl
    cases l with
    | nil =>
      unfold maskFilter
      rw [List.zip_nil_left]
      rfl
    | cons x xs =>
      rw [maskFilter_cons, if_pos (hall b (List.mem_cons_self b bs))]
      rw [ih xs (fun c hc => hall c (List.mem_cons_of_mem b hc)) (by simpa using hl)]

/-- Positions carrying `true` in a mask, in order. -/
def trueIdxs : List Bool → List Nat
  | [] => []
  | b :: m => if b then 0 :: (trueIdxs m).map (· + 1) else (trueIdxs m).map (· + 1)

theorem maskFilter_eq_map_trueIdxs {α : Type} (d : α) :
    ∀ (m : List Bool) (l : List α), m.length = l.length →
      maskFilter m l = (trueIdxs m).map (fun i => l.getD i d) := by
  intro m
  induction m with
  | nil => intro l _; rw [maskFilter_nil_left]; rfl
  | cons b bs ih =>
    intro l hl
    cases l with
    | nil => exact absurd hl (by simp)
    | cons x xs =>
      have hlen : bs.length = xs.length := by simpa using hl
      rw [maskFilter_cons]
      unfold trueIdxs
      by_cases hb : b = true
      · subst hb
        rw [if_pos rfl, if_pos rfl, List.map_cons, List.map_map]
        congr 1
        rw [ih xs hlen]
        apply List.map_congr_left
        intro i _
        rfl
      · rw [Bool.eq_false_iff.mpr hb]
        simp only [Bool.false_eq_true, if_false, List.map_map]
        rw [ih xs hlen]
        apply List.map_congr_left
        intro i _
        rfl

theorem trueIdxs_getD_true : ∀ (m : List Bool) (i : Nat), i ∈ trueIdxs m →
    m.getD i false = true := by
  intro m
  induction m with
  | nil => intro i h; exact absurd h (by simp [trueIdxs])
  | cons b bs ih =>
    intro i h
    unfold trueIdxs at h
    by_cases hb : b = true
    · subst hb
      rw [if_pos rfl] at h
      rcases List.mem_cons.mp h with h | h
      · subst h; rfl
      · rcases List.mem_map.mp h with ⟨j, hj, hje⟩
        subst hje
        exact ih j hj
    · rw [Bool.eq_false_iff.mpr hb] at h
      rcases List.mem_map.mp h with ⟨j, hj, hje⟩
      subst hje
      exact ih j hj

theorem trueIdxs_lt : ∀ (m : List Bool) (i : Nat), i ∈ trueIdxs m →
    i < m.length := by
  intro m
  induction m with
  | nil => intro i h; exact absurd h (by simp [trueIdxs])
  | cons b bs ih =>
    intro i h
    unfold trueIdxs at h
    rw [List.length_cons]
    by_cases hb : b = true
    · subst hb
      rw [if_pos rfl] at h
      rcases List.mem_cons.mp h with h | h
      · subst h; omega
      · rcases List.mem_map.mp h with ⟨j, hj, hje⟩
        subst hje
        have := ih j hj
        omega
    · rw [Bool.eq_false_iff.mpr hb] at h
      rcases List.mem_map.mp h with ⟨j, hj, hje⟩
      subst hje
      have := ih j hj
      omega

theorem mem_maskFilter_of_getD {α : Type} (d : α) :
    ∀ (m : List Bool) (l : List α) (i : Nat), i < l.length →
      m.getD i false = true → l.getD i d ∈ maskFilter m l := by
  intro m
  induction m with
  | nil => intro l i _ hm; exact absurd hm (by simp)
  | cons b bs ih =>
    intro l i hi hm
    cases l with
    | nil => exact absurd hi (by simp)
    | cons x xs =>
      rw [maskFilter_cons]
      cases i with
      | zero =>
        have hb : b = true := hm
        subst hb
        rw [if_pos rfl]
        exact List.mem_cons_self _ _
      | succ j =>
        have hj : j < xs.length := by simpa using hi
        have hmem : xs.getD j d ∈ maskFilter bs xs := ih xs j hj hm
        by_cases hb : b = true
        · subst hb
          rw [if_pos rfl]
          exact List.mem_cons_of_mem x hmem
        · rw [Bool.eq_false_iff.mpr hb]
          simpa using hmem

/-! ### Frame well-formedness and parse/clean characterizations -/

/-- All columns have cell length `n`. -/
def Uniform (n : Nat) (df : Frame) : Prop :=
  ∀ c ∈ df, c.cells.length = n

theorem uniform_WF {n : Nat} {df : Frame} (h : Uniform n df) : WF df := by
  cases df with
  | nil => intro c hc; exact absurd hc (by simp)
  | cons c cs =>
    intro c' hc'
    have h1 := h c' hc'
    have h2 := h c (List.mem_cons_self c cs)
    show c'.cells.length = c.cells.length
    omega

theorem uniform_numRows {n : Nat} {df : Frame} (h : Uniform n df)
    (hne : df ≠ []) : numRows df = n := by
  cases df with
  | nil => exact absurd rfl hne
  | cons c cs => exact h c (List.mem_cons_self c cs)

/-- The data block a parse reads. -/
def parseData (t : RawTable) (h cap : Nat) : List (List Cell) :=
  ((t.drop (h + 1)).take cap).map (conform (t.getD h []).length)

/-- One parsed column. -/
def parseCol (hdr : List Cell) (data : List (List Cell)) (j : Nat) : Col :=
  let raw := data.map (fun r => r.getD j Cell.na)
  ⟨colName (hdr.getD j Cell.na) j, inferDtype raw,
    raw.map (convertCell (inferDtype raw))⟩

theorem parseTable_eq (t : RawTable) (h cap : Nat) :
    parseTable t h cap = (List.range (t.getD h []).length).map
      (parseCol (t.getD h []) (parseData t h cap)) := rfl

theorem parseCol_cells_length (hdr : List Cell) (data : List (List Cell))
    (j : Nat) : (parseCol hdr data j).cells.length = data.length := by
  unfold parseCol
  simp

theorem uniform_parseTable (t : RawTable) (h cap : Nat) :
    Uniform (parseData t h cap).length (parseTable t h cap) := by
  intro c hc
  rw [parseTable_eq] at hc
  rcases List.mem_map.mp hc with ⟨j, _, hje⟩
  rw [← hje]
  exact parseCol_cells_length _ _ j

theorem uniform_dropEmptyCols {n : Nat} {df : Frame} (hu : Uniform n df) :
    Uniform n (dropEmptyCols df) :=
  fun c hc => hu c (List.mem_of_mem_filter hc)

theorem rowKeepMask_length (df : Frame) :
    (rowKeepMask df).length = numRows df := by
  unfold rowKeepMask
  simp

theorem rowKeepMask_getD (df : Frame) (i : Nat) (hi : i < numRows df) :
    (rowKeepMask df).getD i false =
      df.any (fun c => !(c.cells.getD i Cell.na).isNa) := by
  unfold rowKeepMask
  have hlen : i < ((List.range (numRows df)).map
      (fun i => df.any (fun c => !(c.cells.getD i Cell.na).isNa))).length := by
    simpa using hi
  rw [List.getD_eq_getElem _ _ hlen, List.getElem_map, List.getElem_range]

theorem uniform_dropEmptyRows {n : Nat} {df : Frame} (hu : Uniform n df) :
    Uniform ((rowKeepMask df).countP id) (dropEmptyRows df) := by
  intro c hc
  unfold dropEmptyRows at hc
  rcases List.mem_map.mp hc with ⟨c0, hc0, hce⟩
  rw [← hce]
  show (maskFilter (rowKeepMask df) c0.cells).length = _
  apply length_maskFilter
  rw [rowKeepMask_length, hu c0 hc0]
  exact uniform_numRows hu (by rintro rfl; exact absurd hc0 (by simp))

theorem uniform_optimize {n : Nat} {df : Frame} (hu : Uniform n df) :
    Uniform n (optimize_dtypes df) := by
  intro c hc
  rcases List.mem_map.mp hc with ⟨c0, hc0, hce⟩
  rw [← hce, optCol_cells]
  exact hu c0 hc0

theorem WF_processChunk (hdr : List Cell) (c : List (List Cell)) :
    WF (processChunk hdr c) :=
  uniform_WF (uniform_optimize (uniform_dropEmptyRows
    (uniform_dropEmptyCols (uniform_parseTable _ 0 c.length))))

theorem convert_isNa (d : Dtype) (x : Cell) :
    (convertCell d x).isNa = x.isNa := by
  cases d <;> cases x <;> rfl

theorem conform_eq_self (w : Nat) (r : List Cell) (h : r.length = w) :
    conform w r = r := by
  unfold conform
  subst h
  simp [List.take_length]

theorem parseData_cons_zero (hdr : List Cell) (c : List (List Cell))
    (hrect : ∀ r ∈ c, r.length = hdr.length) :
    parseData (hdr :: c) 0 c.length = c := by
  unfold parseData
  show (((hdr :: c).drop 1).take c.length).map (conform hdr.length) = c
  rw [List.drop_one, List.tail_cons, List.take_length]
  calc c.map (conform hdr.length) = c.map id :=
        List.map_congr_left (fun r hr => conform_eq_self _ r (hrect r hr))
    _ = c := List.map_id c

/-- A raw row with at least one non-missing cell. -/
def nonEmptyRow (r : List Cell) : Bool :=
  r.any (fun x => !x.isNa)

theorem parseCol_cells_getD (hdr : List Cell) (data : List (List Cell))
    (j i : Nat) (hi : i < data.length) :
    (parseCol hdr data j).cells.getD i Cell.na =
      convertCell (inferDtype (data.map (fun r => r.getD j Cell.na)))
        ((data.getD i []).getD j Cell.na) := by
  unfold parseCol
  have h1 : i < ((data.map (fun r => r.getD j Cell.na)).map
      (convertCell (inferDtype (data.map (fun r => r.getD j Cell.na))))).length := by
    simpa using hi
  have h2 : i < (data.map (fun r => r.getD j Cell.na)).length := by
    simpa using hi
  show ((data.map (fun r => r.getD j Cell.na)).map _).getD i Cell.na = _
  rw [List.getD_eq_getElem _ _ h1, List.getElem_map, List.getElem_map,
    List.getD_eq_getElem data [] hi]

/-- If row `i` of the chunk has a non-missing cell at position `j < w`, the
parsed column `j` survives the column drop and is non-missing at row `i`. -/
theorem parseCol_keep_of_cell (hdr : List Cell) (c : List (List Cell))
    (i j : Nat)
    (hi : i < c.length) (hj : j < hdr.length)
    (hna : ((c.getD i []).getD j Cell.na).isNa = false) :
    parseCol hdr c j ∈
        dropEmptyCols ((List.range hdr.length).map (parseCol hdr c)) ∧
      (!((parseCol hdr c j).cells.getD i Cell.na).isNa) = true := by
  have hcell : ((parseCol hdr c j).cells.getD i Cell.na).isNa = false := by
    rw [parseCol_cells_getD hdr c j i hi, convert_isNa]
    exact hna
  have hany : (parseCol hdr c j).cells.any (fun x => !x.isNa) = true := by
    rw [List.any_eq_true]
    refine ⟨(parseCol hdr c j).cells.getD i Cell.na, ?_, by rw [hcell]; rfl⟩
    have : i < (parseCol hdr c j).cells.length := by
      rw [parseCol_cells_length]; exact hi
    rw [List.getD_eq_getElem _ _ this]
    exact List.getElem_mem this
  refine ⟨List.mem_filter.mpr ⟨?_, hany⟩, by rw [hcell]; rfl⟩
  exact List.mem_map.mpr ⟨j, List.mem_range.mpr hj, rfl⟩

/-- Row count after both cleaning passes on a freshly parsed chunk: exactly
the number of raw rows holding some non-missing cell. -/
theorem numRows_dropEmpty_parse (hdr : List Cell) (c : List (List Cell))
    (hrect : ∀ r ∈ c, r.length = hdr.length) :
    numRows (dropEmpty (parseTable (hdr :: c) 0 c.length)) =
      c.countP nonEmptyRow := by
  have hdata := parseData_cons_zero hdr c hrect
  have hPeq : parseTable (hdr :: c) 0 c.length =
      (List.range hdr.length).map (parseCol hdr c) := by
    rw [parseTable_eq]
    show (List.range hdr.length).map
        (parseCol hdr (parseData (hdr :: c) 0 c.length)) = _
    rw [hdata]
  have hPuni : Uniform c.length
      ((List.range hdr.length).map (parseCol hdr c)) := by
    intro col hcol
    rcases List.mem_map.mp hcol with ⟨j, _, hje⟩
    rw [← hje]
    exact parseCol_cells_length _ _ _
  unfold dropEmpty
  rw [hPeq]
  have hQuni : Uniform c.length
      (dropEmptyCols ((List.range hdr.length).map (parseCol hdr c))) :=
    uniform_dropEmptyCols hPuni
  cases hQe : dropEmptyCols ((List.range hdr.length).map (parseCol hdr c)) with
  | nil =>
    have hzero : c.countP nonEmptyRow = 0 := by
      by_contra hne0
      have hpos : 0 < c.countP nonEmptyRow := Nat.pos_of_ne_zero hne0
      rcases List.countP_pos_iff.mp hpos with ⟨r, hr, hrne⟩
      rcases List.any_eq_true.mp hrne with ⟨x, hx, hxna⟩
      rcases List.mem_iff_getElem.mp hr with ⟨i, hi, hie⟩
      rcases List.mem_iff_getElem.mp hx with ⟨j, hj, hje⟩
      have hiD : c.getD i [] = r := by rw [List.getD_eq_getElem c [] hi, hie]
      have hjw : j < hdr.length := by rw [← hrect r hr]; exact hj
      have hjD : (c.getD i []).getD j Cell.na = x := by
        rw [hiD, List.getD_eq_getElem r _ hj, hje]
      have hkeep := parseCol_keep_of_cell hdr c i j hi hjw
        (by rw [hjD]; simpa using hxna)
      rw [hQe] at hkeep
      exact absurd hkeep.1 (by simp)
    rw [hzero]
    rfl
  | cons q qs =>
    have hqmem : q ∈ dropEmptyCols
        ((List.range hdr.length).map (parseCol hdr c)) := by
      rw [hQe]
      exact List.mem_cons_self q qs
    have hqlen : q.cells.length = c.length := hQuni q hqmem
    have hnum : numRows (q :: qs) = c.length := hqlen
    have hmasklen : (rowKeepMask (q :: qs)).length = c.length := by
      rw [rowKeepMask_length, hnum]
    show (maskFilter (rowKeepMask (q :: qs)) q.cells).length = _
    rw [length_maskFilter _ _ (by rw [hmasklen, hqlen])]
    have hmask : rowKeepMask (q :: qs) = (List.range c.length).map
        (fun i => (q :: qs).any
          (fun col => !(col.cells.getD i Cell.na).isNa)) := by
      unfold rowKeepMask
      rw [hnum]
    rw [hmask, List.countP_map]
    have hpt : ∀ i ∈ List.range c.length,
        (id ∘ fun i => (q :: qs).any
          (fun col => !(col.cells.getD i Cell.na).isNa)) i =
          nonEmptyRow (c.getD i []) := by
      intro i hi
      have hic : i < c.length := List.mem_range.mp hi
      show (q :: qs).any (fun col => !(col.cells.getD i Cell.na).isNa) =
        nonEmptyRow (c.getD i [])
      have hrmem : c.getD i [] ∈ c := by
        rw [List.getD_eq_getElem c [] hic]
        exact List.getElem_mem hic
      have hrw : (c.getD i []).length = hdr.length := hrect _ hrmem
      cases hne : nonEmptyRow (c.getD i []) with
      | true =>
        rcases List.any_eq_true.mp hne with ⟨x, hx, hxna⟩
        rcases List.mem_iff_getElem.mp hx with ⟨j, hj, hje⟩
        have hjw : j < hdr.length := by rw [← hrw]; exact hj
        have hjD : (c.getD i []).getD j Cell.na = x := by
          rw [List.getD_eq_getElem _ _ hj, hje]
        have hkeep := parseCol_keep_of_cell hdr c i j hic hjw
          (by rw [hjD]; simpa using hxna)
        rw [hQe] at hkeep
        rw [List.any_eq_true]
        exact ⟨parseCol hdr c j, hkeep.1, hkeep.2⟩
      | false =>
        cases hX : (q :: qs).any
            (fun col => !(col.cells.getD i Cell.na).isNa) with
        | false => rfl
        | true =>
          exfalso
          rcases List.any_eq_true.mp hX with ⟨col, hcol, hcolna⟩
          have hcolQ : col ∈ dropEmptyCols
              ((List.range hdr.length).map (parseCol hdr c)) := by
            rw [hQe]
            exact hcol
          have hcolP := List.mem_of_mem_filter hcolQ
          rcases List.mem_map.mp hcolP with ⟨j, hjr, hje⟩
          have hjw : j < hdr.length := List.mem_range.mp hjr
          have hcell : ((parseCol hdr c j).cells.getD i Cell.na).isNa
              = false := by
            rw [hje]
            simpa using hcolna
          rw [parseCol_cells_getD hdr c j i hic, convert_isNa] at hcell
          have hjlt : j < (c.getD i []).length := by rw [hrw]; exact hjw
          have hxmem : (c.getD i []).getD j Cell.na ∈ c.getD i [] := by
            rw [List.getD_eq_getElem _ _ hjlt]
            exact List.getElem_mem hjlt
          have hcon : nonEmptyRow (c.getD i []) = true := by
            unfold nonEmptyRow
            rw [List.any_eq_true]
            exact ⟨_, hxmem, by rw [hcell]; rfl⟩
          rw [hne] at hcon
          exact Bool.noConfusion hcon
    rw [List.countP_congr (fun x hx => by rw [hpt x hx])]
    have hcid : (List.range c.length).map (fun i => c.getD i []) = c := by
      have h2 := map_range_getD c [] id
      rw [List.map_id] at h2
      exact h2
    calc (List.range c.length).countP (fun i => nonEmptyRow (c.getD i []))
        = ((List.range c.length).map (fun i => c.getD i [])).countP
            nonEmptyRow := by rw [List.countP_map]; rfl
      _ = c.countP nonEmptyRow := by rw [hcid]

/-- Row count of one processed CSV chunk. -/
theorem numRows_processChunk (hdr : List Cell) (c : List (List Cell))
    (hrect : ∀ r ∈ c, r.length = hdr.length) :
    numRows (processChunk hdr c) = c.countP nonEmptyRow := by
  unfold processChunk
  rw [optimize_numRows]
  exact numRows_dropEmpty_parse hdr c hrect

/-! ### CSV chunk-loop row accounting -/

/-- Total row count across a list of frames. -/
def framesRows (fs : List Frame) : Nat :=
  (fs.map numRows).sum

theorem framesRows_append (a b : List Frame) :
    framesRows (a ++ b) = framesRows a + framesRows b := by
  unfold framesRows
  rw [List.map_append, List.sum_append]

theorem csvLoop_cons (hdr : List Cell) (ch : List (List Cell))
    (rest : List (List (List Cell))) (total : Nat) (acc : List Frame) :
    csvLoop hdr (ch :: rest) total acc =
      if MAX_ROWS ≤ total + numRows (processChunk hdr ch)
      then acc ++ [processChunk hdr ch]
      else csvLoop hdr rest (total + numRows (processChunk hdr ch))
        (acc ++ [processChunk hdr ch]) := rfl

theorem csvLoop_mem (hdr : List Cell) :
    ∀ (chunks : List (List (List Cell))) (total : Nat) (acc : List Frame)
      (f : Frame), f ∈ csvLoop hdr chunks total acc →
      f ∈ acc ∨ ∃ ch ∈ chunks, f = processChunk hdr ch := by
  intro chunks
  induction chunks with
  | nil =>
    intro total acc f hf
    exact Or.inl hf
  | cons ch rest ih =>
    intro total acc f hf
    rw [csvLoop_cons] at hf
    by_cases hbr : MAX_ROWS ≤ total + numRows (processChunk hdr ch)
    · rw [if_pos hbr] at hf
      rcases List.mem_append.mp hf with hf | hf
      · exact Or.inl hf
      · rcases List.mem_singleton.mp hf with rfl
        exact Or.inr ⟨ch, List.mem_cons_self _ _, rfl⟩
    · rw [if_neg hbr] at hf
      rcases ih _ _ f hf with hf | ⟨ch2, hch2, rfl⟩
      · rcases List.mem_append.mp hf with hf | hf
        · exact Or.inl hf
        · rcases List.mem_singleton.mp hf with rfl
          exact Or.inr ⟨ch, List.mem_cons_self _ _, rfl⟩
      · exact Or.inr ⟨ch2, List.mem_cons_of_mem _ hch2, rfl⟩

theorem csvLoop_total (hdr : List Cell) :
    ∀ (chunks : List (List (List Cell))) (total : Nat) (acc : List Frame),
      total = framesRows acc →
      MAX_ROWS ≤ framesRows (csvLoop hdr chunks total acc) ∨
      framesRows (csvLoop hdr chunks total acc) =
        total + (chunks.map (fun ch => numRows (processChunk hdr ch))).sum := by
  intro chunks
  induction chunks with
  | nil =>
    intro total acc h
    right
    show framesRows acc = total + ([] : List Nat).sum
    rw [h]
    simp
  | cons ch rest ih =>
    intro total acc h
    rw [csvLoop_cons]
    have hacc : framesRows (acc ++ [processChunk hdr ch]) =
        total + numRows (processChunk hdr ch) := by
      rw [framesRows_append, h]
      unfold framesRows
      simp
    by_cases hbr : MAX_ROWS ≤ total + numRows (processChunk hdr ch)
    · rw [if_pos hbr]
      left
      rw [hacc]
      exact hbr
    · rw [if_neg hbr]
      rcases ih (total + numRows (processChunk hdr ch))
        (acc ++ [processChunk hdr ch]) hacc.symm with hle | heq
      · exact Or.inl hle
      · right
        rw [heq, List.map_cons, List.sum_cons]
        omega

/-- The union-ordered name list of a concatenation. -/
def unionNames (fs : List Frame) : List String :=
  fs.foldl (fun acc f => acc ++ (frameNames f).filter (fun n => !acc.contains n)) []

theorem concatFrames_eq (fs : List Frame) :
    concatFrames fs = (unionNames fs).map (fun n =>
      ⟨n, (fs.map (fun f => concatDtypeOf f n)).foldr promote .i8,
        (fs.map (fun f => concatCellsOf f n)).flatten⟩) := rfl

theorem unionNames_superset (fs : List Frame) :
    ∀ (acc : List String) (n : String),
      (n ∈ acc ∨ ∃ f ∈ fs, n ∈ frameNames f) →
      n ∈ fs.foldl
        (fun acc f => acc ++ (frameNames f).filter (fun m => !acc.contains m))
        acc := by
  induction fs with
  | nil =>
    intro acc n h
    rcases h with h | ⟨f, hf, _⟩
    · exact h
    · exact absurd hf (by simp)
  | cons f fs ih =>
    intro acc n h
    show n ∈ fs.foldl _ (acc ++ (frameNames f).filter (fun m => !acc.contains m))
    apply ih
    rcases h with h | ⟨g, hg, hn⟩
    · exact Or.inl (List.mem_append_left _ h)
    · rcases List.mem_cons.mp hg with rfl | hg
      · by_cases hacc : n ∈ acc
        · exact Or.inl (List.mem_append_left _ hacc)
        · refine Or.inl (List.mem_append_right _ ?_)
          rw [List.mem_filter]
          refine ⟨hn, ?_⟩
          simp [hacc]
      · exact Or.inr ⟨g, hg, hn⟩

theorem concatCellsOf_length (f : Frame) (n : String) (hwf : WF f) :
    (concatCellsOf f n).length = numRows f := by
  unfold concatCellsOf
  cases hfind : f.find? (fun c => c.name == n) with
  | none => exact List.length_replicate _ _
  | some c => exact hwf c (List.mem_of_find?_eq_some hfind)

theorem numRows_concatFrames (fs : List Frame) (hwf : ∀ f ∈ fs, WF f) :
    numRows (concatFrames fs) = framesRows fs := by
  rw [concatFrames_eq]
  cases hn : unionNames fs with
  | nil =>
    -- no columns anywhere: every frame is empty
    have hall : ∀ f ∈ fs, numRows f = 0 := by
      intro f hf
      cases hfe : f with
      | nil => rfl
      | cons c cs =>
        exfalso
        have hcn : c.name ∈ frameNames f := by
          rw [hfe]
          exact List.mem_map.mpr ⟨c, List.mem_cons_self c cs, rfl⟩
        have hun : c.name ∈ unionNames fs :=
          unionNames_superset fs [] c.name (Or.inr ⟨f, hf, hcn⟩)
        rw [hn] at hun
        exact absurd hun (by simp)
    show (0 : Nat) = framesRows fs
    unfold framesRows
    symm
    rw [List.sum_eq_zero]
    intro x hx
    rcases List.mem_map.mp hx with ⟨f, hf, hfe⟩
    rw [← hfe]
    exact hall f hf
  | cons n0 ns =>
    show ((fs.map (fun f => concatCellsOf f n0)).flatten).length = framesRows fs
    rw [List.length_flatten, List.map_map]
    unfold framesRows
    congr 1
    apply List.map_congr_left
    intro f hf
    exact concatCellsOf_length f n0 (hwf f hf)

theorem chunksOf_pos_cons {α : Type} (n : Nat) (l : List α) (hn : 0 < n)
    (hl : l ≠ []) :
    chunksOf n l = l.take n :: chunksOf n (l.drop n) := by
  cases n with
  | zero => omega
  | succ k =>
    cases l with
    | nil => exact absurd rfl hl
    | cons x xs => simp [chunksOf]

theorem chunksOf_mem_subset {α : Type} :
    ∀ (n : Nat) (l : List α) (ch : List α), ch ∈ chunksOf n l →
      ∀ r ∈ ch, r ∈ l := by
  intro n l
  induction n, l using chunksOf.induct with
  | case1 n =>
    intro ch hch
    exact absurd hch (by simp [chunksOf])
  | case2 x xs =>
    intro ch hch
    exact absurd hch (by simp [chunksOf])
  | case3 n x xs ih =>
    intro ch hch r hr
    rw [chunksOf_pos_cons (n + 1) (x :: xs) (by omega) (by simp)] at hch
    rcases List.mem_cons.mp hch with rfl | hch
    · exact List.mem_of_mem_take hr
    · exact List.mem_of_mem_drop (ih ch hch r hr)

theorem sum_chunksOf_countP {α : Type} (p : α → Bool) :
    ∀ (n : Nat) (l : List α), 0 < n →
      ((chunksOf n l).map (fun ch => ch.countP p)).sum = l.countP p := by
  intro n l
  induction n, l using chunksOf.induct with
  | case1 n =>
    intro hn
    simp [chunksOf]
  | case2 x xs =>
    intro hn
    omega
  | case3 n x xs ih =>
    intro hn
    rw [chunksOf_pos_cons (n + 1) (x :: xs) (by omega) (by simp), List.map_cons,
      List.sum_cons, ih (by omega), ← List.countP_append, List.take_append_drop]

theorem read_csv_cons (hdr : List Cell) (data : List (List Cell)) :
    read_csv_chunked (hdr :: data) =
      (if (csvLoop hdr (chunksOf CHUNK_SIZE data) 0 []).isEmpty then []
       else concatFrames (csvLoop hdr (chunksOf CHUNK_SIZE data) 0 [])) := rfl

/-- C3 (amended): a CSV whose data holds more than `MAX_ROWS` non-empty rows
is truncated to at least `MAX_ROWS` rows — exactly `MAX_ROWS` when no data row
is entirely empty — and the session's truncation flag is set.  (The claim's
"exactly the cap" fails when all-empty rows are interleaved: the per-chunk
cleaning makes the running row total overshoot the cap; see the
counterexample.) -/
theorem C3_row_cap_truncation (hdr : List Cell) (data : List (List Cell))
    (hrect : ∀ r ∈ data, r.length = hdr.length)
    (hcount : MAX_ROWS < data.countP nonEmptyRow) :
    MAX_ROWS ≤ numRows (read_csv_chunked (hdr :: data)) ∧
    ((∀ r ∈ data, nonEmptyRow r = true) →
      numRows (read_csv_chunked (hdr :: data)) = MAX_ROWS) ∧
    (∀ (st : SessionState) (now sz : Nat), sz ≤ 52428800 →
      ((process_uploaded_file st ⟨"data.csv", sz, some (hdr :: data)⟩
        now).1).rowsLimited = true) := by
  have hwf : ∀ f ∈ csvLoop hdr (chunksOf CHUNK_SIZE data) 0 [], WF f := by
    intro f hf
    rcases csvLoop_mem hdr _ 0 [] f hf with h | ⟨ch, _, rfl⟩
    · exact absurd h (by simp)
    · exact WF_processChunk hdr ch
  have hchrect : ∀ ch ∈ chunksOf CHUNK_SIZE data,
      ∀ r ∈ ch, r.length = hdr.length :=
    fun ch hch r hr => hrect r (chunksOf_mem_subset CHUNK_SIZE data ch hch r hr)
  have hsum : ((chunksOf CHUNK_SIZE data).map
      (fun ch => numRows (processChunk hdr ch))).sum =
      data.countP nonEmptyRow := by
    rw [List.map_congr_left
      (fun ch hch => numRows_processChunk hdr ch (hchrect ch hch))]
    exact sum_chunksOf_countP nonEmptyRow CHUNK_SIZE data (by decide)
  have hge : MAX_ROWS ≤ framesRows (csvLoop hdr (chunksOf CHUNK_SIZE data) 0 []) := by
    rcases csvLoop_total hdr (chunksOf CHUNK_SIZE data) 0 [] rfl with h | h
    · exact h
    · rw [h, hsum]
      omega
  have hne : csvLoop hdr (chunksOf CHUNK_SIZE data) 0 [] ≠ [] := by
    intro h0
    rw [h0] at hge
    have : framesRows ([] : List Frame) = 0 := rfl
    rw [this] at hge
    exact absurd hge (by decide)
  have hnum : numRows (read_csv_chunked (hdr :: data)) =
      framesRows (csvLoop hdr (chunksOf CHUNK_SIZE data) 0 []) := by
    rw [read_csv_cons]
    rw [if_neg (by
      rw [List.isEmpty_iff]
      exact fun h => hne h)]
    exact numRows_concatFrames _ hwf
  refine ⟨by rw [hnum]; exact hge, ?_, ?_⟩
  · intro hall
    have hlen : data.countP nonEmptyRow = data.length :=
      List.countP_eq_length.mpr hall
    have hdlen : MAX_ROWS < data.length := by rw [← hlen]; exact hcount
    have hMR : (MAX_ROWS : Nat) = 100000 := rfl
    have hCS : (CHUNK_SIZE : Nat) = 50000 := rfl
    have hdne : data ≠ [] := by
      intro h0
      rw [h0] at hdlen
      exact absurd hdlen (by decide)
    have hc1 : chunksOf CHUNK_SIZE data =
        data.take CHUNK_SIZE :: chunksOf CHUNK_SIZE (data.drop CHUNK_SIZE) :=
      chunksOf_pos_cons _ _ (by decide) hdne
    have hp1 : numRows (processChunk hdr (data.take CHUNK_SIZE)) =
        CHUNK_SIZE := by
      rw [numRows_processChunk hdr _
        (fun r hr => hrect r (List.mem_of_mem_take hr))]
      rw [List.countP_eq_length.mpr
        (fun r hr => hall r (List.mem_of_mem_take hr))]
      rw [List.length_take]
      omega
    have hd2 : CHUNK_SIZE < (data.drop CHUNK_SIZE).length := by
      rw [List.length_drop]
      omega
    have hd2ne : data.drop CHUNK_SIZE ≠ [] := by
      intro h0
      rw [h0] at hd2
      exact absurd hd2 (by decide)
    have hc2 : chunksOf CHUNK_SIZE (data.drop CHUNK_SIZE) =
        (data.drop CHUNK_SIZE).take CHUNK_SIZE ::
          chunksOf CHUNK_SIZE ((data.drop CHUNK_SIZE).drop CHUNK_SIZE) :=
      chunksOf_pos_cons _ _ (by decide) hd2ne
    have hp2 : numRows (processChunk hdr
        ((data.drop CHUNK_SIZE).take CHUNK_SIZE)) = CHUNK_SIZE := by
      rw [numRows_processChunk hdr _ (fun r hr =>
        hrect r (List.mem_of_mem_drop (List.mem_of_mem_take hr)))]
      rw [List.countP_eq_length.mpr (fun r hr =>
        hall r (List.mem_of_mem_drop (List.mem_of_mem_take hr)))]
      rw [List.length_take]
      omega
    have hloop : csvLoop hdr (chunksOf CHUNK_SIZE data) 0 [] =
        [processChunk hdr (data.take CHUNK_SIZE),
         processChunk hdr ((data.drop CHUNK_SIZE).take CHUNK_SIZE)] := by
      rw [hc1, csvLoop_cons, hp1]
      rw [if_neg (by decide)]
      rw [hc2, csvLoop_cons, hp2]
      rw [if_pos (by decide)]
      rfl
    rw [hnum, hloop]
    unfold framesRows
    rw [List.map_cons, List.map_cons, List.map_nil, List.sum_cons,
      List.sum_cons, List.sum_nil, hp1, hp2]
    decide
  · intro st now sz hsz
    have hallow : allowed_file "data.csv" = true := by decide
    have hpars : parserFor "data.csv" = ParserKind.csv := by decide
    have hing : ingestFrame ⟨"data.csv", sz, some (hdr :: data)⟩ =
        read_csv_chunked (hdr :: data) := by
      unfold ingestFrame
      rw [hpars]
      rfl
    have hrows : MAX_ROWS ≤
        numRows (ingestFrame ⟨"data.csv", sz, some (hdr :: data)⟩) := by
      rw [hing, hnum]
      exact hge
    have hempty : frameEmpty (ingestFrame ⟨"data.csv", sz, some (hdr :: data)⟩)
        = false := by
      unfold frameEmpty
      have h1 : numRows (ingestFrame ⟨"data.csv", sz, some (hdr :: data)⟩)
          ≠ 0 := by
        intro h0
        rw [h0] at hrows
        exact absurd hrows (by decide)
      have h2 : (ingestFrame ⟨"data.csv", sz, some (hdr :: data)⟩).isEmpty
          = false := by
        cases hi : ingestFrame ⟨"data.csv", sz, some (hdr :: data)⟩ with
        | nil => exact absurd (by rw [hi]; rfl) h1
        | cons a as => rfl
      rw [h2]
      simp [h1]
    unfold process_uploaded_file
    rw [if_neg (by rw [hallow]; simp)]
    rw [if_neg (by
      show ¬ MAX_FILE_SIZE_MB * 1024 * 1024 < sz
      have : MAX_FILE_SIZE_MB * 1024 * 1024 = 52428800 := by decide
      omega)]
    rw [if_neg (by rw [hempty]; simp)]
    show decide (MAX_ROWS ≤
      numRows (ingestFrame ⟨"data.csv", sz, some (hdr :: data)⟩)) = true
    exact decide_eq_true hrows

/-- Header row of the big CSV examples. -/
def exHdrA : List Cell := [Cell.str "A"]

/-- A one-cell data row. -/
def dRow : List Cell := [Cell.int 1]

/-- First chunk worth of rows: one all-empty row, then 49999 data rows. -/
def exG1 : List (List Cell) := [Cell.na] :: List.replicate 49999 dRow

/-- Second chunk worth of rows. -/
def exG2 : List (List Cell) := List.replicate 50000 dRow

/-- Two trailing data rows. -/
def exG3 : List (List Cell) := List.replicate 2 dRow

/-- The big CSV: 100002 raw rows, 100001 of them non-empty. -/
def exData : List (List Cell) := exG1 ++ (exG2 ++ exG3)

theorem exG1_length : exG1.length = CHUNK_SIZE := by
  unfold exG1
  rw [List.length_cons, List.length_replicate]
  rfl

theorem exG2_length : exG2.length = CHUNK_SIZE := by
  unfold exG2
  rw [List.length_replicate]
  rfl

theorem chunksOf_nil {α : Type} (n : Nat) :
    chunksOf n ([] : List α) = [] := by
  cases n <;> simp [chunksOf]

theorem exData_chunks : chunksOf CHUNK_SIZE exData = [exG1, exG2, exG3] := by
  unfold exData
  rw [chunksOf_pos_cons CHUNK_SIZE _ (by decide) (by
    intro h0
    have := congrArg List.length h0
    rw [List.length_append, exG1_length] at this
    rw [List.length_nil] at this
    have hcs : CHUNK_SIZE = 50000 := rfl
    omega)]
  rw [List.take_left' exG1_length, List.drop_left' exG1_length]
  rw [chunksOf_pos_cons CHUNK_SIZE _ (by decide) (by
    intro h0
    have := congrArg List.length h0
    rw [List.length_append, exG2_length] at this
    rw [List.length_nil] at this
    have hcs : CHUNK_SIZE = 50000 := rfl
    omega)]
  rw [List.take_left' exG2_length, List.drop_left' exG2_length]
  rw [chunksOf_pos_cons CHUNK_SIZE _ (by decide) (by
    intro h0
    have := congrArg List.length h0
    unfold exG3 at this
    simp at this)]
  rw [List.take_of_length_le (by unfold exG3; simp; decide)]
  rw [List.drop_eq_nil_of_le (by unfold exG3; simp; decide)]
  rw [chunksOf_nil]

theorem exG1_count : exG1.countP nonEmptyRow = 49999 := by
  unfold exG1
  rw [List.countP_cons, List.countP_replicate]
  decide

theorem exG2_count : exG2.countP nonEmptyRow = 50000 := by
  unfold exG2
  rw [List.countP_replicate]
  decide

theorem exG3_count : exG3.countP nonEmptyRow = 2 := by
  unfold exG3
  rw [List.countP_replicate]
  decide

theorem exData_count : exData.countP nonEmptyRow = 100001 := by
  unfold exData
  rw [List.countP_append, List.countP_append, exG1_count, exG2_count, exG3_count]

theorem exG1_rect : ∀ r ∈ exG1, r.length = exHdrA.length := by
  intro r hr
  unfold exG1 at hr
  rcases List.mem_cons.mp hr with rfl | hr
  · rfl
  · rw [List.eq_of_mem_replicate hr]
    rfl

theorem exG2_rect : ∀ r ∈ exG2, r.length = exHdrA.length := by
  intro r hr
  rw [List.eq_of_mem_replicate hr]
  rfl

theorem exG3_rect : ∀ r ∈ exG3, r.length = exHdrA.length := by
  intro r hr
  rw [List.eq_of_mem_replicate hr]
  rfl

theorem exCsv_loop : csvLoop exHdrA (chunksOf CHUNK_SIZE exData) 0 [] =
    [processChunk exHdrA exG1, processChunk exHdrA exG2,
     processChunk exHdrA exG3] := by
  have hp1 : numRows (processChunk exHdrA exG1) = 49999 := by
    rw [numRows_processChunk exHdrA exG1 exG1_rect, exG1_count]
  have hp2 : numRows (processChunk exHdrA exG2) = 50000 := by
    rw [numRows_processChunk exHdrA exG2 exG2_rect, exG2_count]
  have hp3 : numRows (processChunk exHdrA exG3) = 2 := by
    rw [numRows_processChunk exHdrA exG3 exG3_rect, exG3_count]
  rw [exData_chunks, csvLoop_cons, hp1, if_neg (by decide), csvLoop_cons, hp2,
    if_neg (by decide), csvLoop_cons, hp3, if_pos (by decide)]
  rfl

theorem exCsv_numRows : numRows (read_csv_chunked (exHdrA :: exData)) =
    100001 := by
  have hwf : ∀ f ∈ csvLoop exHdrA (chunksOf CHUNK_SIZE exData) 0 [], WF f := by
    intro f hf
    rcases csvLoop_mem exHdrA _ 0 [] f hf with h | ⟨ch, _, rfl⟩
    · exact absurd h (by simp)
    · exact WF_processChunk exHdrA ch
  rw [read_csv_cons]
  rw [if_neg (by
    rw [List.isEmpty_iff, exCsv_loop]
    simp)]
  rw [numRows_concatFrames _ hwf, exCsv_loop]
  unfold framesRows
  rw [List.map_cons, List.map_cons, List.map_cons, List.map_nil]
  rw [numRows_processChunk exHdrA exG1 exG1_rect, exG1_count,
    numRows_processChunk exHdrA exG2 exG2_rect, exG2_count,
    numRows_processChunk exHdrA exG3 exG3_rect, exG3_count]
  rfl

/-- Counterexample to C3 as stated: this CSV holds 100001 non-empty data rows
(more than the cap), yet non-preview ingestion yields 100001 rows, not exactly
`MAX_ROWS = 100000` — the chunked reader's break check runs against the
per-chunk-cleaned running total, which overshoots when a chunk contained an
all-empty row. -/
theorem C3_counterexample :
    MAX_ROWS < exData.countP nonEmptyRow ∧
    numRows (read_csv_chunked (exHdrA :: exData)) ≠ MAX_ROWS := by
  rw [exData_count, exCsv_numRows]
  exact ⟨by decide, by decide⟩

/-- Witness for C3 (amended) at an all-non-empty 100001-row CSV: the result
has at least the cap, and exactly the cap. -/
theorem C3_row_cap_truncation_witness :
    MAX_ROWS ≤
      numRows (read_csv_chunked (exHdrA :: List.replicate 100001 dRow)) ∧
    numRows (read_csv_chunked (exHdrA :: List.replicate 100001 dRow)) =
      MAX_ROWS := by
  have hrect : ∀ r ∈ List.replicate 100001 dRow, r.length = exHdrA.length := by
    intro r hr
    rw [List.eq_of_mem_replicate hr]
    rfl
  have hcnt : MAX_ROWS < (List.replicate 100001 dRow).countP nonEmptyRow := by
    rw [List.countP_replicate]
    decide
  have h := C3_row_cap_truncation exHdrA (List.replicate 100001 dRow)
    hrect hcnt
  exact ⟨h.1, h.2.1 (fun r hr => by rw [List.eq_of_mem_replicate hr]; rfl)⟩

/-! ### Structural evaluation of the big CSV example -/

theorem maskFilter_map_pred {α : Type} (p : α → Bool) :
    ∀ l : List α, maskFilter (l.map p) l = l.filter p := by
  intro l
  induction l with
  | nil => rfl
  | cons x xs ih =>
    rw [List.map_cons, maskFilter_cons, List.filter_cons]
    by_cases h : p x = true
    · rw [if_pos h, if_pos h, ih]
    · rw [if_neg h, if_neg h, ih]

theorem rowKeepMask_single (c : Col) :
    rowKeepMask [c] = c.cells.map (fun x => !x.isNa) := by
  unfold rowKeepMask
  show (List.range c.cells.length).map
    (fun i => [c].any (fun col => !(col.cells.getD i Cell.na).isNa)) = _
  have hpt : ∀ i ∈ List.range c.cells.length,
      [c].any (fun col => !(col.cells.getD i Cell.na).isNa) =
        !(c.cells.getD i Cell.na).isNa := by
    intro i _
    rw [List.any_cons, List.any_nil, Bool.or_false]
  rw [List.map_congr_left hpt]
  exact map_range_getD c.cells Cell.na (fun x => !x.isNa)

theorem dropEmptyRows_single (c : Col) :
    dropEmptyRows [c] =
      [⟨c.name, c.dtype, c.cells.filter (fun x => !x.isNa)⟩] := by
  unfold dropEmptyRows
  rw [List.map_cons, List.map_nil, rowKeepMask_single, maskFilter_map_pred]

theorem dropEmptyRows_single1 (nm : String) (d : Dtype) (cells : List Cell) :
    dropEmptyRows [⟨nm, d, cells⟩] =
      [⟨nm, d, cells.filter (fun x => !x.isNa)⟩] := by
  rw [dropEmptyRows_single]

/-- The optimizer loop body once the branch decision is known. -/
theorem optCol_of_decision (nm : String) (d0 d : Dtype) (cells : List Cell)
    (h : optDecision d0 cells = some d) :
    optCol ⟨nm, d0, cells⟩ = ⟨nm, d, cells.map (castForDtype d)⟩ := by
  unfold optCol
  show (match optDecision d0 cells with
    | some d => (⟨nm, d, cells.map (castForDtype d)⟩ : Col)
    | none => ⟨nm, d0, cells⟩) = _
  rw [h]

theorem optCol_of_none (nm : String) (d0 : Dtype) (cells : List Cell)
    (h : optDecision d0 cells = none) :
    optCol ⟨nm, d0, cells⟩ = ⟨nm, d0, cells⟩ := by
  unfold optCol
  show (match optDecision d0 cells with
    | some d => (⟨nm, d, cells.map (castForDtype d)⟩ : Col)
    | none => ⟨nm, d0, cells⟩) = _
  rw [h]

theorem parseCol_eq (hdr : List Cell) (data : List (List Cell)) (j : Nat) :
    parseCol hdr data j =
      ⟨colName (hdr.getD j Cell.na) j,
        inferDtype (data.map (fun r => r.getD j Cell.na)),
        (data.map (fun r => r.getD j Cell.na)).map
          (convertCell (inferDtype (data.map (fun r => r.getD j Cell.na))))⟩ :=
  rfl

theorem parse_singleA (c : List (List Cell))
    (hrect : ∀ r ∈ c, r.length = exHdrA.length) :
    parseTable (exHdrA :: c) 0 c.length = [parseCol exHdrA c 0] := by
  rw [parseTable_eq]
  show (List.range exHdrA.length).map
    (parseCol exHdrA (parseData (exHdrA :: c) 0 c.length)) = _
  rw [parseData_cons_zero exHdrA c hrect]
  rfl

/-! ### Inference outcomes on concrete cell mixes -/

theorem inferDtype_allInt (l : List Cell) (hne : l ≠ [])
    (hall : ∀ x ∈ l, x.isInt = true) : inferDtype l = .i64 := by
  have h1 : l.isEmpty = false := by
    rw [← Bool.not_eq_true, List.isEmpty_iff]
    exact hne
  have h2 : l.any Cell.isStr = false := by
    rw [List.any_eq_false]
    intro x hx
    have := hall x hx
    cases x with
    | int z => exact fun hc => Bool.noConfusion hc
    | na => exact Bool.noConfusion this
    | str s => exact Bool.noConfusion this
    | flt z => exact Bool.noConfusion this
  have h3 : l.any Cell.isFlt = false := by
    rw [List.any_eq_false]
    intro x hx
    have := hall x hx
    cases x with
    | int z => exact fun hc => Bool.noConfusion hc
    | na => exact Bool.noConfusion this
    | str s => exact Bool.noConfusion this
    | flt z => exact Bool.noConfusion this
  have h4 : l.any Cell.isNa = false := by
    rw [List.any_eq_false]
    intro x hx
    have := hall x hx
    cases x with
    | int z => exact fun hc => Bool.noConfusion hc
    | na => exact Bool.noConfusion this
    | str s => exact Bool.noConfusion this
    | flt z => exact Bool.noConfusion this
  unfold inferDtype
  rw [h1, h2, h3, h4]
  rfl

theorem inferDtype_hasFlt_noStr (l : List Cell)
    (hflt : ∃ x ∈ l, x.isFlt = true)
    (hstr : ∀ x ∈ l, x.isStr = false) : inferDtype l = .f64 := by
  rcases hflt with ⟨x, hx, hxf⟩
  have h1 : l.isEmpty = false := by
    rw [← Bool.not_eq_true, List.isEmpty_iff]
    exact List.ne_nil_of_mem hx
  have h2 : l.any Cell.isStr = false := by
    rw [List.any_eq_false]
    intro y hy
    rw [hstr y hy]
    exact fun hc => Bool.noConfusion hc
  have h3 : l.any Cell.isFlt = true := List.any_eq_true.mpr ⟨x, hx, hxf⟩
  unfold inferDtype
  rw [h1, h2, h3]
  rfl

theorem inferDtype_hasNa_noStr (l : List Cell)
    (hna : ∃ x ∈ l, x.isNa = true)
    (hstr : ∀ x ∈ l, x.isStr = false) : inferDtype l = .f64 := by
  rcases hna with ⟨x, hx, hxn⟩
  have h1 : l.isEmpty = false := by
    rw [← Bool.not_eq_true, List.isEmpty_iff]
    exact List.ne_nil_of_mem hx
  have h2 : l.any Cell.isStr = false := by
    rw [List.any_eq_false]
    intro y hy
    rw [hstr y hy]
    exact fun hc => Bool.noConfusion hc
  have h4 : l.any Cell.isNa = true := List.any_eq_true.mpr ⟨x, hx, hxn⟩
  unfold inferDtype
  rw [h1, h2, h4, Bool.or_true]
  rfl

theorem inferDtype_hasStr (l : List Cell)
    (hstr : ∃ x ∈ l, x.isStr = true) : inferDtype l = .obj := by
  rcases hstr with ⟨x, hx, hxs⟩
  have h1 : l.isEmpty = false := by
    rw [← Bool.not_eq_true, List.isEmpty_iff]
    exact List.ne_nil_of_mem hx
  have h2 : l.any Cell.isStr = true := List.any_eq_true.mpr ⟨x, hx, hxs⟩
  unfold inferDtype
  rw [h1, h2]
  rfl

/-! ### Structural evaluation of single-column chunks -/

theorem oddPart_one : oddPart 1 = 1 := by
  unfold oddPart
  rfl

theorem f32RepCell_flt1 : f32RepCell (Cell.flt 1) = true := by
  show f32RepInt 1 = true
  unfold f32RepInt
  rw [show (1 : Int).natAbs = 1 from rfl, oddPart_one]
  decide

theorem processChunk_repInt (n : Nat) (hn : n ≠ 0) :
    processChunk exHdrA (List.replicate n dRow) =
      [⟨"A", .i8, List.replicate n (Cell.int 1)⟩] := by
  obtain ⟨m, rfl⟩ : ∃ m, n = m + 1 := ⟨n - 1, by omega⟩
  have hrect : ∀ r ∈ List.replicate (m + 1) dRow, r.length = exHdrA.length := by
    intro r hr
    rw [List.eq_of_mem_replicate hr]
    rfl
  unfold processChunk
  rw [parse_singleA _ hrect]
  have hraw : (List.replicate (m + 1) dRow).map (fun r => r.getD 0 Cell.na) =
      List.replicate (m + 1) (Cell.int 1) := by
    rw [List.map_replicate]
    rfl
  have hinf : inferDtype (List.replicate (m + 1) (Cell.int 1)) = .i64 := by
    refine inferDtype_allInt _ (by simp) ?_
    intro x hx
    rw [List.eq_of_mem_replicate hx]
    rfl
  have hcol : parseCol exHdrA (List.replicate (m + 1) dRow) 0 =
      ⟨"A", .i64, List.replicate (m + 1) (Cell.int 1)⟩ := by
    rw [parseCol_eq, hraw, hinf, List.map_replicate]
    rfl
  rw [hcol]
  unfold dropEmpty
  have hany : (List.replicate (m + 1) (Cell.int 1)).any
      (fun x => !x.isNa) = true := by
    rw [List.any_replicate]
    rfl
  have hkeep : dropEmptyCols [⟨"A", Dtype.i64,
      List.replicate (m + 1) (Cell.int 1)⟩] =
      [⟨"A", Dtype.i64, List.replicate (m + 1) (Cell.int 1)⟩] := by
    unfold dropEmptyCols
    simp only [List.filter_cons, List.filter_nil]
    rw [hany]
    rfl
  rw [hkeep, dropEmptyRows_single1]
  have hfil : (List.replicate (m + 1) (Cell.int 1)).filter
      (fun x => !x.isNa) = List.replicate (m + 1) (Cell.int 1) := by
    rw [List.filter_replicate]
    rfl
  rw [hfil]
  unfold optimize_dtypes
  rw [List.map_cons, List.map_nil]
  have hdec : optDecision Dtype.i64 (List.replicate (m + 1) (Cell.int 1)) =
      some .i8 := by
    unfold optDecision
    rw [List.filterMap_replicate_of_some
        (show cellInt (Cell.int 1) = some 1 from rfl),
      List.min?_replicate_of_pos (min_self (1 : Int)) (Nat.succ_pos m),
      List.max?_replicate_of_pos (max_self (1 : Int)) (Nat.succ_pos m)]
    rfl
  have hopt : optCol ⟨"A", Dtype.i64, List.replicate (m + 1) (Cell.int 1)⟩ =
      ⟨"A", Dtype.i8, List.replicate (m + 1) (Cell.int 1)⟩ := by
    rw [optCol_of_decision _ _ _ _ hdec, List.map_replicate,
      show castForDtype Dtype.i8 (Cell.int 1) = Cell.int 1 from by decide]
  rw [hopt]

theorem processChunk_repFlt (n : Nat) (hn : n ≠ 0) :
    processChunk exHdrA (List.replicate n [Cell.flt 1]) =
      [⟨"A", .f32, List.replicate n (Cell.flt 1)⟩] := by
  obtain ⟨m, rfl⟩ : ∃ m, n = m + 1 := ⟨n - 1, by omega⟩
  have hrect : ∀ r ∈ List.replicate (m + 1) [Cell.flt 1],
      r.length = exHdrA.length := by
    intro r hr
    rw [List.eq_of_mem_replicate hr]
    rfl
  unfold processChunk
  rw [parse_singleA _ hrect]
  have hraw : (List.replicate (m + 1) [Cell.flt 1]).map
      (fun r => r.getD 0 Cell.na) = List.replicate (m + 1) (Cell.flt 1) := by
    rw [List.map_replicate]
    rfl
  have hmem : Cell.flt 1 ∈ List.replicate (m + 1) (Cell.flt 1) := by
    rw [List.replicate_succ]
    exact List.mem_cons_self _ _
  have hinf : inferDtype (List.replicate (m + 1) (Cell.flt 1)) = .f64 := by
    refine inferDtype_hasFlt_noStr _ ⟨Cell.flt 1, hmem, rfl⟩ ?_
    intro x hx
    rw [List.eq_of_mem_replicate hx]
    rfl
  have hcol : parseCol exHdrA (List.replicate (m + 1) [Cell.flt 1]) 0 =
      ⟨"A", .f64, List.replicate (m + 1) (Cell.flt 1)⟩ := by
    rw [parseCol_eq, hraw, hinf, List.map_replicate]
    rfl
  rw [hcol]
  unfold dropEmpty
  have hany : (List.replicate (m + 1) (Cell.flt 1)).any
      (fun x => !x.isNa) = true := by
    rw [List.any_replicate]
    rfl
  have hkeep : dropEmptyCols [⟨"A", Dtype.f64,
      List.replicate (m + 1) (Cell.flt 1)⟩] =
      [⟨"A", Dtype.f64, List.replicate (m + 1) (Cell.flt 1)⟩] := by
    unfold dropEmptyCols
    simp only [List.filter_cons, List.filter_nil]
    rw [hany]
    rfl
  rw [hkeep, dropEmptyRows_single1]
  have hfil : (List.replicate (m + 1) (Cell.flt 1)).filter
      (fun x => !x.isNa) = List.replicate (m + 1) (Cell.flt 1) := by
    rw [List.filter_replicate]
    rfl
  rw [hfil]
  unfold optimize_dtypes
  rw [List.map_cons, List.map_nil]
  have hdec : optDecision Dtype.f64 (List.replicate (m + 1) (Cell.flt 1)) =
      some .f32 := by
    unfold optDecision
    show (if (List.replicate (m + 1) (Cell.flt 1)).all f32RepCell = true
      then some Dtype.f32 else none) = some Dtype.f32
    rw [List.all_replicate, if_neg (Nat.succ_ne_zero m), f32RepCell_flt1]
    rfl
  have hopt : optCol ⟨"A", Dtype.f64, List.replicate (m + 1) (Cell.flt 1)⟩ =
      ⟨"A", Dtype.f32, List.replicate (m + 1) (Cell.flt 1)⟩ := by
    rw [optCol_of_decision _ _ _ _ hdec, List.map_replicate]
    rfl
  rw [hopt]

theorem processChunk_exG1 :
    processChunk exHdrA exG1 =
      [⟨"A", .f32, List.replicate 49999 (Cell.flt 1)⟩] := by
  have hrect : ∀ r ∈ exG1, r.length = exHdrA.length := exG1_rect
  unfold processChunk
  rw [parse_singleA _ hrect]
  have hraw : exG1.map (fun r => r.getD 0 Cell.na) =
      Cell.na :: List.replicate 49999 (Cell.int 1) := by
    unfold exG1
    rw [List.map_cons, List.map_replicate]
    rfl
  have hinf : inferDtype (Cell.na :: List.replicate 49999 (Cell.int 1)) =
      .f64 := by
    refine inferDtype_hasNa_noStr _
      ⟨Cell.na, List.mem_cons_self _ _, rfl⟩ ?_
    intro x hx
    rcases List.mem_cons.mp hx with rfl | hx
    · rfl
    · rw [List.eq_of_mem_replicate hx]
      rfl
  have hcol : parseCol exHdrA exG1 0 =
      ⟨"A", .f64, Cell.na :: List.replicate 49999 (Cell.flt 1)⟩ := by
    rw [parseCol_eq, hraw, hinf, List.map_cons, List.map_replicate]
    exact rfl
  rw [hcol]
  unfold dropEmpty
  have hany : (Cell.na :: List.replicate 49999 (Cell.flt 1)).any
      (fun x => !x.isNa) = true := by
    rw [List.any_cons, List.any_replicate]
    rfl
  have hkeep : dropEmptyCols [⟨"A", Dtype.f64,
      Cell.na :: List.replicate 49999 (Cell.flt 1)⟩] =
      [⟨"A", Dtype.f64, Cell.na :: List.replicate 49999 (Cell.flt 1)⟩] := by
    unfold dropEmptyCols
    simp only [List.filter_cons, List.filter_nil]
    rw [hany]
    rfl
  rw [hkeep, dropEmptyRows_single1]
  have hfil : (Cell.na :: List.replicate 49999 (Cell.flt 1)).filter
      (fun x => !x.isNa) = List.replicate 49999 (Cell.flt 1) := by
    simp only [List.filter_cons]
    rw [if_neg (by decide), List.filter_replicate, if_pos (by decide)]
  rw [hfil]
  unfold optimize_dtypes
  rw [List.map_cons, List.map_nil]
  have hdec : optDecision Dtype.f64 (List.replicate 49999 (Cell.flt 1)) =
      some .f32 := by
    unfold optDecision
    show (if (List.replicate 49999 (Cell.flt 1)).all f32RepCell = true
      then some Dtype.f32 else none) = some Dtype.f32
    rw [List.all_replicate, if_neg (show (49999 : Nat) ≠ 0 by decide),
      f32RepCell_flt1]
    rfl
  have hopt : optCol ⟨"A", Dtype.f64, List.replicate 49999 (Cell.flt 1)⟩ =
      ⟨"A", Dtype.f32, List.replicate 49999 (Cell.flt 1)⟩ := by
    rw [optCol_of_decision _ _ _ _ hdec, List.map_replicate]
    rfl
  rw [hopt]

/-! ### Concatenation of same-named single-column frames -/

theorem concatFrames_threeA (d1 d2 d3 : Dtype) (l1 l2 l3 : List Cell) :
    concatFrames [[⟨"A", d1, l1⟩], [⟨"A", d2, l2⟩], [⟨"A", d3, l3⟩]] =
      [⟨"A", promote d1 (promote d2 (promote d3 .i8)),
        l1 ++ (l2 ++ (l3 ++ []))⟩] := rfl

theorem concatFrames_twoA (d1 d2 : Dtype) (l1 l2 : List Cell) :
    concatFrames [[⟨"A", d1, l1⟩], [⟨"A", d2, l2⟩]] =
      [⟨"A", promote d1 (promote d2 .i8), l1 ++ (l2 ++ [])⟩] := rfl

/-! ### The first ingestion of the big CSV, in full -/

/-- The cell column the first ingestion of `exHdrA :: exData` produces. -/
def exYcells : List Cell :=
  List.replicate 49999 (Cell.flt 1) ++
    (List.replicate 50000 (Cell.int 1) ++ (List.replicate 2 (Cell.int 1) ++ []))

/-- The frame the first ingestion of `exHdrA :: exData` produces: one float32
column of 100001 cells. -/
def exY : Frame := [⟨"A", .f32, exYcells⟩]

theorem exYcells_length : exYcells.length = 100001 := by
  unfold exYcells
  rw [List.length_append, List.length_append, List.length_append,
    List.length_replicate, List.length_replicate, List.length_replicate]
  rfl

theorem exY_eq : read_csv_chunked (exHdrA :: exData) = exY := by
  have hpc2 : processChunk exHdrA exG2 =
      [⟨"A", .i8, List.replicate 50000 (Cell.int 1)⟩] := by
    show processChunk exHdrA (List.replicate 50000 dRow) = _
    exact processChunk_repInt 50000 (by decide)
  have hpc3 : processChunk exHdrA exG3 =
      [⟨"A", .i8, List.replicate 2 (Cell.int 1)⟩] := by
    show processChunk exHdrA (List.replicate 2 dRow) = _
    exact processChunk_repInt 2 (by decide)
  rw [read_csv_cons, exCsv_loop, processChunk_exG1, hpc2, hpc3]
  rw [if_neg (by rw [List.isEmpty_cons]; exact fun hc => Bool.noConfusion hc)]
  rw [concatFrames_threeA]
  rfl

/-! ### Serializing the first result and re-ingesting it -/

theorem serialize_exY :
    serializeDF exY = exHdrA :: List.replicate 100001 [Cell.flt 1] := by
  have hcell : ∀ x ∈ exYcells, serializeCell .f32 x = Cell.flt 1 := by
    intro x hx
    unfold exYcells at hx
    rcases List.mem_append.mp hx with hx | hx
    · rw [List.eq_of_mem_replicate hx]
      rfl
    · rcases List.mem_append.mp hx with hx | hx
      · rw [List.eq_of_mem_replicate hx]
        rfl
      · rcases List.mem_append.mp hx with hx | hx
        · rw [List.eq_of_mem_replicate hx]
          rfl
        · exact absurd hx (by simp)
  unfold serializeDF
  have hnum : numRows exY = 100001 := by
    show exYcells.length = 100001
    exact exYcells_length
  rw [hnum]
  have hrows : (List.range 100001).map (serializeRow exY) =
      List.replicate 100001 [Cell.flt 1] := by
    rw [List.eq_replicate_iff]
    constructor
    · rw [List.length_map, List.length_range]
    · intro b hb
      rcases List.mem_map.mp hb with ⟨i, hi, rfl⟩
      have hilt : i < exYcells.length := by
        rw [exYcells_length]
        exact List.mem_range.mp hi
      show [serializeCell .f32 (exYcells.getD i Cell.na)] = [Cell.flt 1]
      rw [List.getD_eq_getElem exYcells Cell.na hilt,
        hcell _ (List.getElem_mem hilt)]
  rw [hrows]
  rfl

theorem reingest_chunks :
    chunksOf CHUNK_SIZE (List.replicate 100001 [Cell.flt 1]) =
      [List.replicate 50000 [Cell.flt 1], List.replicate 50000 [Cell.flt 1],
        List.replicate 1 [Cell.flt 1]] := by
  have hne : ∀ k : Nat, k ≠ 0 →
      (List.replicate k [Cell.flt 1] : List (List Cell)) ≠ [] := by
    intro k hk hc
    have := congrArg List.length hc
    rw [List.length_replicate] at this
    exact hk this
  rw [chunksOf_pos_cons CHUNK_SIZE _ (by decide) (hne 100001 (by decide)),
    List.take_replicate, List.drop_replicate,
    show min CHUNK_SIZE 100001 = 50000 from by decide,
    show 100001 - CHUNK_SIZE = 50001 from by decide]
  rw [chunksOf_pos_cons CHUNK_SIZE _ (by decide) (hne 50001 (by decide)),
    List.take_replicate, List.drop_replicate,
    show min CHUNK_SIZE 50001 = 50000 from by decide,
    show 50001 - CHUNK_SIZE = 1 from by decide]
  rw [chunksOf_pos_cons CHUNK_SIZE _ (by decide) (hne 1 (by decide)),
    List.take_replicate, List.drop_replicate,
    show min CHUNK_SIZE 1 = 1 from by decide,
    show 1 - CHUNK_SIZE = 0 from by decide]
  rw [show (List.replicate 0 [Cell.flt 1] : List (List Cell)) = [] from rfl,
    chunksOf_nil]

theorem reingest_numRows :
    numRows (read_csv_chunked
      (exHdrA :: List.replicate 100001 [Cell.flt 1])) = MAX_ROWS := by
  have hpc : processChunk exHdrA (List.replicate 50000 [Cell.flt 1]) =
      [⟨"A", .f32, List.replicate 50000 (Cell.flt 1)⟩] :=
    processChunk_repFlt 50000 (by decide)
  have hnum : numRows (processChunk exHdrA
      (List.replicate 50000 [Cell.flt 1])) = 50000 := by
    rw [hpc]
    show (List.replicate 50000 (Cell.flt 1)).length = 50000
    rw [List.length_replicate]
  have hloop : csvLoop exHdrA
      [List.replicate 50000 [Cell.flt 1], List.replicate 50000 [Cell.flt 1],
        List.replicate 1 [Cell.flt 1]] 0 [] =
      [[(⟨"A", .f32, List.replicate 50000 (Cell.flt 1)⟩ : Col)],
        [(⟨"A", .f32, List.replicate 50000 (Cell.flt 1)⟩ : Col)]] := by
    rw [csvLoop_cons, hnum, if_neg (by decide), csvLoop_cons, hnum,
      if_pos (by decide), hpc]
    rfl
  rw [read_csv_cons, reingest_chunks, hloop]
  rw [if_neg (by rw [List.isEmpty_cons]; exact fun hc => Bool.noConfusion hc)]
  rw [concatFrames_twoA]
  show (List.replicate 50000 (Cell.flt 1) ++
    (List.replicate 50000 (Cell.flt 1) ++ [])).length = MAX_ROWS
  rw [List.length_append, List.length_append, List.length_replicate]
  rfl

/-! ### Roundtrip of the spreadsheet pipeline: cell-level identities -/

theorem serializeCell_notFloat (d : Dtype) (x : Cell) (h32 : d ≠ .f32)
    (h64 : d ≠ .f64) : serializeCell d x = x := by
  cases d <;> cases x <;>
    first
      | rfl
      | exact absurd rfl h32
      | exact absurd rfl h64

theorem serializeCell_notInt (d : Dtype) (x : Cell) (h : x.isInt = false) :
    serializeCell d x = x := by
  cases d <;> cases x <;> first | rfl | exact Bool.noConfusion h

theorem convertCell_i64 (x : Cell) : convertCell .i64 x = x := by
  cases x <;> rfl

theorem convertCell_obj (x : Cell) : convertCell .obj x = x := by
  cases x <;> rfl

theorem convertCell_notInt (d : Dtype) (x : Cell) (h : x.isInt = false) :
    convertCell d x = x := by
  cases d <;> cases x <;> first | rfl | exact Bool.noConfusion h

/-! ### What a dtype inference outcome says about the cells -/

theorem inferDtype_mem (l : List Cell) :
    inferDtype l = .obj ∨ inferDtype l = .f64 ∨ inferDtype l = .i64 := by
  unfold inferDtype
  by_cases h1 : l.isEmpty = true
  · rw [if_pos h1]
    exact Or.inl rfl
  · rw [if_neg h1]
    by_cases h2 : l.any Cell.isStr = true
    · rw [if_pos h2]
      exact Or.inl rfl
    · rw [if_neg h2]
      by_cases h3 : (l.any Cell.isFlt || l.any Cell.isNa) = true
      · rw [if_pos h3]
        exact Or.inr (Or.inl rfl)
      · rw [if_neg h3]
        exact Or.inr (Or.inr rfl)

theorem inferDtype_eq_i64 (l : List Cell) (h : inferDtype l = .i64) :
    l ≠ [] ∧ ∀ x ∈ l, x.isInt = true := by
  unfold inferDtype at h
  by_cases h1 : l.isEmpty = true
  · rw [if_pos h1] at h
    exact absurd h (fun hc => Dtype.noConfusion hc)
  rw [if_neg h1] at h
  by_cases h2 : l.any Cell.isStr = true
  · rw [if_pos h2] at h
    exact absurd h (fun hc => Dtype.noConfusion hc)
  rw [if_neg h2] at h
  by_cases h3 : (l.any Cell.isFlt || l.any Cell.isNa) = true
  · rw [if_pos h3] at h
    exact absurd h (fun hc => Dtype.noConfusion hc)
  refine ⟨fun hnil => h1 (by rw [hnil]; rfl), ?_⟩
  have hor : l.any Cell.isFlt = false ∧ l.any Cell.isNa = false := by
    constructor
    · cases hb : l.any Cell.isFlt
      · rfl
      · exact absurd (by rw [hb]; rfl) h3
    · cases hb : l.any Cell.isNa
      · rfl
      · exact absurd (by rw [hb, Bool.or_true]) h3
  intro x hx
  have hxs : x.isStr = false := by
    cases hb : x.isStr
    · rfl
    · exact absurd (List.any_eq_true.mpr ⟨x, hx, hb⟩) h2
  have hxf : x.isFlt = false := by
    cases hb : x.isFlt
    · rfl
    · exfalso
      have hax := List.any_eq_true.mpr ⟨x, hx, hb⟩
      rw [hor.1] at hax
      exact Bool.noConfusion hax
  have hxn : x.isNa = false := by
    cases hb : x.isNa
    · rfl
    · exfalso
      have hax := List.any_eq_true.mpr ⟨x, hx, hb⟩
      rw [hor.2] at hax
      exact Bool.noConfusion hax
  cases x with
  | int z => rfl
  | na => exact Bool.noConfusion hxn
  | str s => exact Bool.noConfusion hxs
  | flt z => exact Bool.noConfusion hxf

theorem inferDtype_eq_f64 (l : List Cell) (h : inferDtype l = .f64) :
    ∀ x ∈ l, x.isStr = false := by
  unfold inferDtype at h
  by_cases h1 : l.isEmpty = true
  · rw [if_pos h1] at h
    exact absurd h (fun hc => Dtype.noConfusion hc)
  rw [if_neg h1] at h
  by_cases h2 : l.any Cell.isStr = true
  · rw [if_pos h2] at h
    exact absurd h (fun hc => Dtype.noConfusion hc)
  intro x hx
  cases hb : x.isStr
  · rfl
  · exact absurd (List.any_eq_true.mpr ⟨x, hx, hb⟩) h2

theorem inferDtype_eq_obj (l : List Cell) (h : inferDtype l = .obj)
    (hne : l ≠ []) : ∃ x ∈ l, x.isStr = true := by
  unfold inferDtype at h
  have h1 : l.isEmpty = false := by
    cases hb : l.isEmpty
    · rfl
    · exact absurd (List.isEmpty_iff.mp hb) hne
  rw [h1, if_neg (fun hc => Bool.noConfusion hc)] at h
  by_cases h2 : l.any Cell.isStr = true
  · exact List.any_eq_true.mp h2
  rw [if_neg h2] at h
  by_cases h3 : (l.any Cell.isFlt || l.any Cell.isNa) = true
  · rw [if_pos h3] at h
    exact absurd h (fun hc => Dtype.noConfusion hc)
  · rw [if_neg h3] at h
    exact absurd h (fun hc => Dtype.noConfusion hc)

/-! ### The column invariant every cleaned parsed column satisfies -/

/-- After parsing and cleaning, a column's stored cells match its dtype — an
int64 column is all integers, a float64 column is floats and missing values
with at least one float, an object column holds at least one string — and at
least one cell is non-missing. -/
def ColGood (c : Col) : Prop :=
  (∃ x ∈ c.cells, x.isNa = false) ∧
    ((c.dtype = .i64 ∧ ∀ x ∈ c.cells, x.isInt = true) ∨
     (c.dtype = .f64 ∧ ∀ x ∈ c.cells, (x.isFlt || x.isNa) = true) ∨
     (c.dtype = .obj ∧ ∃ x ∈ c.cells, x.isStr = true))

/-- Re-parsing one serialized column: what one column of
`parseTable (serializeDF Z) 0 _` looks like in terms of the original column. -/
def reCol (c : Col) : Col :=
  ⟨c.name, inferDtype (c.cells.map (serializeCell c.dtype)),
    (c.cells.map (serializeCell c.dtype)).map
      (convertCell (inferDtype (c.cells.map (serializeCell c.dtype))))⟩

theorem reCol_eq (nm : String) (d : Dtype) (cells : List Cell) :
    reCol ⟨nm, d, cells⟩ =
      ⟨nm, inferDtype (cells.map (serializeCell d)),
        (cells.map (serializeCell d)).map
          (convertCell (inferDtype (cells.map (serializeCell d))))⟩ := rfl

theorem reCol_intCol (nm : String) (dk : Dtype) (cells : List Cell)
    (h32 : dk ≠ .f32) (h64 : dk ≠ .f64)
    (hne : cells ≠ []) (hall : ∀ x ∈ cells, x.isInt = true) :
    reCol ⟨nm, dk, cells⟩ = ⟨nm, .i64, cells⟩ := by
  have hser : cells.map (serializeCell dk) = cells := by
    refine (List.map_congr_left ?_).trans (List.map_id cells)
    intro x _
    exact serializeCell_notFloat dk x h32 h64
  have hconv : cells.map (convertCell .i64) = cells := by
    refine (List.map_congr_left ?_).trans (List.map_id cells)
    intro x _
    exact convertCell_i64 x
  rw [reCol_eq, hser, inferDtype_allInt cells hne hall, hconv]

theorem reCol_fltCol (nm : String) (dk : Dtype) (cells : List Cell)
    (hall : ∀ x ∈ cells, (x.isFlt || x.isNa) = true)
    (hflt : ∃ x ∈ cells, x.isFlt = true) :
    reCol ⟨nm, dk, cells⟩ = ⟨nm, .f64, cells⟩ := by
  have hnotint : ∀ x ∈ cells, x.isInt = false := by
    intro x hx
    have h1 := hall x hx
    cases x with
    | int z => exact Bool.noConfusion h1
    | str s => exact Bool.noConfusion h1
    | na => rfl
    | flt z => rfl
  have hnostr : ∀ x ∈ cells, x.isStr = false := by
    intro x hx
    have h1 := hall x hx
    cases x with
    | int z => exact Bool.noConfusion h1
    | str s => exact Bool.noConfusion h1
    | na => rfl
    | flt z => rfl
  have hser : cells.map (serializeCell dk) = cells := by
    refine (List.map_congr_left ?_).trans (List.map_id cells)
    intro x hx
    exact serializeCell_notInt dk x (hnotint x hx)
  have hconv : cells.map (convertCell .f64) = cells := by
    refine (List.map_congr_left ?_).trans (List.map_id cells)
    intro x hx
    exact convertCell_notInt .f64 x (hnotint x hx)
  rw [reCol_eq, hser, inferDtype_hasFlt_noStr cells hflt hnostr, hconv]

theorem reCol_objCol (nm : String) (cells : List Cell)
    (hstr : ∃ x ∈ cells, x.isStr = true) :
    reCol ⟨nm, .obj, cells⟩ = ⟨nm, .obj, cells⟩ := by
  have hser : cells.map (serializeCell .obj) = cells := by
    refine (List.map_congr_left ?_).trans (List.map_id cells)
    intro x _
    exact serializeCell_notFloat .obj x
      (fun hc => Dtype.noConfusion hc) (fun hc => Dtype.noConfusion hc)
  have hconv : cells.map (convertCell .obj) = cells := by
    refine (List.map_congr_left ?_).trans (List.map_id cells)
    intro x _
    exact convertCell_obj x
  rw [reCol_eq, hser, inferDtype_hasStr cells hstr, hconv]

/-! ### The optimizer decision never leaves the numeric kind -/

theorem optDecision_i64_intKind (cells : List Cell) (d : Dtype)
    (h : optDecision .i64 cells = some d) :
    d = .i8 ∨ d = .i16 ∨ d = .i32 := by
  unfold optDecision at h
  cases hm : (cells.filterMap cellInt).min? with
  | none =>
    rw [hm] at h
    cases hM : (cells.filterMap cellInt).max? with
    | none => rw [hM] at h; exact Option.noConfusion h
    | some M => rw [hM] at h; exact Option.noConfusion h
  | some m =>
    rw [hm] at h
    cases hM : (cells.filterMap cellInt).max? with
    | none => rw [hM] at h; exact Option.noConfusion h
    | some M =>
      rw [hM] at h
      have h2 : (if intMin 8 < m ∧ M < intMax 8 then some Dtype.i8
          else if intMin 16 < m ∧ M < intMax 16 then some Dtype.i16
          else if intMin 32 < m ∧ M < intMax 32 then some Dtype.i32
          else none) = some d := h
      by_cases h8 : intMin 8 < m ∧ M < intMax 8
      · rw [if_pos h8] at h2
        exact Or.inl (Option.some.inj h2).symm
      rw [if_neg h8] at h2
      by_cases h16 : intMin 16 < m ∧ M < intMax 16
      · rw [if_pos h16] at h2
        exact Or.inr (Or.inl (Option.some.inj h2).symm)
      rw [if_neg h16] at h2
      by_cases h32 : intMin 32 < m ∧ M < intMax 32
      · rw [if_pos h32] at h2
        exact Or.inr (Or.inr (Option.some.inj h2).symm)
      · rw [if_neg h32] at h2
        exact Option.noConfusion h2

theorem optDecision_f64_f32 (cells : List Cell) (d : Dtype)
    (h : optDecision .f64 cells = some d) : d = .f32 := by
  unfold optDecision at h
  have h2 : (if cells.all f32RepCell = true then some Dtype.f32 else none) =
      some d := h
  by_cases hall : cells.all f32RepCell = true
  · rw [if_pos hall] at h2
    exact (Option.some.inj h2).symm
  · rw [if_neg hall] at h2
    exact Option.noConfusion h2

/-- The key roundtrip fact for one column: write out an optimized good column
and re-parse it, and the original (pre-optimization) column comes back. -/
theorem reCol_optCol (c : Col) (hcg : ColGood c) : reCol (optCol c) = c := by
  obtain ⟨nm, d, cells⟩ := c
  obtain ⟨hnna, hcase⟩ := hcg
  rcases hcase with ⟨hd, hall⟩ | ⟨hd, hall⟩ | ⟨hd, hstr⟩
  · -- integer column
    have hd' : d = .i64 := hd
    subst hd'
    have hall' : ∀ x ∈ cells, x.isInt = true := hall
    have hne : cells ≠ [] := by
      rcases hnna with ⟨x, hx, _⟩
      exact List.ne_nil_of_mem hx
    cases hdec : optDecision .i64 cells with
    | none =>
      rw [optCol_of_none nm _ _ hdec]
      exact reCol_intCol nm .i64 cells (fun hc => Dtype.noConfusion hc)
        (fun hc => Dtype.noConfusion hc) hne hall'
    | some dk =>
      have hcast : cells.map (castForDtype dk) = cells := by
        have h2 := optCol_cells ⟨nm, .i64, cells⟩
        rw [optCol_of_decision nm _ _ _ hdec] at h2
        exact h2
      rw [optCol_of_decision nm _ _ _ hdec, hcast]
      rcases optDecision_i64_intKind cells dk hdec with rfl | rfl | rfl
      · exact reCol_intCol nm .i8 cells (fun hc => Dtype.noConfusion hc)
          (fun hc => Dtype.noConfusion hc) hne hall'
      · exact reCol_intCol nm .i16 cells (fun hc => Dtype.noConfusion hc)
          (fun hc => Dtype.noConfusion hc) hne hall'
      · exact reCol_intCol nm .i32 cells (fun hc => Dtype.noConfusion hc)
          (fun hc => Dtype.noConfusion hc) hne hall'
  · -- float column
    have hd' : d = .f64 := hd
    subst hd'
    have hall' : ∀ x ∈ cells, (x.isFlt || x.isNa) = true := hall
    have hflt : ∃ x ∈ cells, x.isFlt = true := by
      rcases hnna with ⟨x, hx, hxna⟩
      refine ⟨x, hx, ?_⟩
      have h1 := hall' x hx
      cases x with
      | flt z => rfl
      | na => exact Bool.noConfusion hxna
      | int z => exact Bool.noConfusion h1
      | str s => exact Bool.noConfusion h1
    cases hdec : optDecision .f64 cells with
    | none =>
      rw [optCol_of_none nm _ _ hdec]
      exact reCol_fltCol nm .f64 cells hall' hflt
    | some dk =>
      have hdk : dk = .f32 := optDecision_f64_f32 cells dk hdec
      subst hdk
      have hcast : cells.map (castForDtype .f32) = cells := by
        refine (List.map_congr_left ?_).trans (List.map_id cells)
        intro x _
        exact castForDtype_f32 x
      rw [optCol_of_decision nm _ _ _ hdec, hcast]
      exact reCol_fltCol nm .f32 cells hall' hflt
  · -- object column
    have hd' : d = .obj := hd
    subst hd'
    have hstr' : ∃ x ∈ cells, x.isStr = true := hstr
    rw [optCol_of_none nm .obj cells
      (show optDecision .obj cells = none from rfl)]
    exact reCol_objCol nm cells hstr'

/-- Counterexample to C6 as stated: re-ingesting the serialized output of the
chunked CSV reader on this input changes the dataset.  The first ingestion
keeps 100001 rows (the break check overshoots the cap because an all-empty row
was cleaned away inside the first chunk); the re-ingestion of that output holds
100001 non-empty rows and is truncated to exactly 100000. -/
theorem C6_counterexample :
    read_csv_chunked (serializeDF (read_csv_chunked (exHdrA :: exData))) ≠
      read_csv_chunked (exHdrA :: exData) := by
  intro heq
  have h1 := congrArg numRows heq
  rw [exY_eq, serialize_exY, reingest_numRows] at h1
  have h2 : numRows exY = 100001 := by
    show exYcells.length = 100001
    exact exYcells_length
  rw [h2] at h1
  exact absurd h1 (by decide)

/-! ### Parsing a serialized frame gives back its columns through `reCol` -/

/-- Default column used for positional access. -/
def dcol : Col := ⟨"", .obj, []⟩

theorem serializeRow_length (Z : Frame) (i : Nat) :
    (serializeRow Z i).length = Z.length :=
  List.length_map _ _

theorem serializeRow_getD (Z : Frame) (i j : Nat) (hj : j < Z.length) :
    (serializeRow Z i).getD j Cell.na =
      serializeCell (Z.getD j dcol).dtype
        ((Z.getD j dcol).cells.getD i Cell.na) := by
  unfold serializeRow
  have hj2 : j < (Z.map
      (fun c => serializeCell c.dtype (c.cells.getD i Cell.na))).length := by
    rw [List.length_map]
    exact hj
  rw [List.getD_eq_getElem _ _ hj2, List.getElem_map,
    List.getD_eq_getElem Z dcol hj]

theorem parseData_serializeDF (Z : Frame) (hcap : numRows Z ≤ MAX_ROWS) :
    parseData (serializeDF Z) 0 MAX_ROWS =
      (List.range (numRows Z)).map (serializeRow Z) := by
  show ((((List.range (numRows Z)).map (serializeRow Z))).take MAX_ROWS).map
    (conform (Z.map (fun c => Cell.str c.name)).length) =
    (List.range (numRows Z)).map (serializeRow Z)
  rw [List.take_of_length_le
    (by rw [List.length_map, List.length_range]; exact hcap)]
  refine (List.map_congr_left ?_).trans (List.map_id _)
  intro r hr
  rcases List.mem_map.mp hr with ⟨i, _, rfl⟩
  show conform (Z.map (fun c => Cell.str c.name)).length (serializeRow Z i) =
    id (serializeRow Z i)
  exact conform_eq_self _ _ (by rw [serializeRow_length, List.length_map])

theorem parseTable_serializeDF (Z : Frame) (hwf : WF Z)
    (hcap : numRows Z ≤ MAX_ROWS) :
    parseTable (serializeDF Z) 0 MAX_ROWS = Z.map reCol := by
  rw [parseTable_eq]
  show (List.range ((Z.map (fun c => Cell.str c.name)).length)).map
    (parseCol (Z.map (fun c => Cell.str c.name))
      (parseData (serializeDF Z) 0 MAX_ROWS)) = Z.map reCol
  rw [parseData_serializeDF Z hcap, List.length_map]
  have hcols : ∀ j ∈ List.range Z.length,
      parseCol (Z.map (fun c => Cell.str c.name))
        ((List.range (numRows Z)).map (serializeRow Z)) j =
      reCol (Z.getD j dcol) := by
    intro j hj
    have hjl : j < Z.length := List.mem_range.mp hj
    have hraw : ((List.range (numRows Z)).map (serializeRow Z)).map
        (fun r => r.getD j Cell.na) =
        (Z.getD j dcol).cells.map (serializeCell (Z.getD j dcol).dtype) := by
      rw [List.map_map]
      have hlen : (Z.getD j dcol).cells.length = numRows Z := by
        refine hwf _ ?_
        rw [List.getD_eq_getElem Z dcol hjl]
        exact List.getElem_mem hjl
      have hpt : ∀ i ∈ List.range (numRows Z),
          ((fun r => r.getD j Cell.na) ∘ serializeRow Z) i =
          (fun i => serializeCell (Z.getD j dcol).dtype
            ((Z.getD j dcol).cells.getD i Cell.na)) i := by
        intro i _
        exact serializeRow_getD Z i j hjl
      rw [List.map_congr_left hpt, ← hlen]
      exact map_range_getD (Z.getD j dcol).cells Cell.na
        (serializeCell (Z.getD j dcol).dtype)
    have hname : (Z.map (fun c => Cell.str c.name)).getD j Cell.na =
        Cell.str (Z.getD j dcol).name := by
      have hj2 : j < (Z.map (fun c => Cell.str c.name)).length := by
        rw [List.length_map]
        exact hjl
      rw [List.getD_eq_getElem _ _ hj2, List.getElem_map,
        List.getD_eq_getElem Z dcol hjl]
    rw [parseCol_eq, hraw, hname]
    rfl
  have h1 : (List.range Z.length).map
      (parseCol (Z.map (fun c => Cell.str c.name))
        ((List.range (numRows Z)).map (serializeRow Z))) =
      (List.range Z.length).map (fun j => reCol (Z.getD j dcol)) :=
    List.map_congr_left hcols
  rw [h1]
  exact map_range_getD Z dcol reCol

/-! ### The recovery trigger is harmless on a serialized frame -/

theorem hasSubstr_le_length (pat l : List Char) (hp : pat ≠ [])
    (h : hasSubstr pat l = true) : pat.length ≤ l.length := by
  induction l with
  | nil =>
    exfalso
    have hempty : pat.isEmpty = true := h
    rw [List.isEmpty_iff] at hempty
    exact hp hempty
  | cons c rest ih =>
    have h2 : pat.isPrefixOf (c :: rest) = true ∨ hasSubstr pat rest = true :=
      Bool.or_eq_true_iff.mp h
    rcases h2 with h2 | h2
    · exact (List.isPrefixOf_iff_prefix.mp h2).length_le
    · have := ih h2
      rw [List.length_cons]
      omega

theorem goodRow_names (ns : List String) (h2 : 2 ≤ ns.length)
    (hun : ∃ nm ∈ ns, isUnnamedName nm = true) :
    goodRow (ns.map Cell.str) = true := by
  unfold goodRow
  rw [Bool.and_eq_true]
  refine ⟨?_, ?_⟩
  · rw [decide_eq_true_iff]
    have hcnt : (ns.map Cell.str).countP (fun c => !c.isNa) = ns.length := by
      rw [List.countP_map]
      exact List.countP_eq_length.mpr (fun a _ => rfl)
    rw [hcnt]
    exact h2
  · rcases hun with ⟨nm, hnm, hu⟩
    rw [List.any_eq_true]
    refine ⟨Cell.str nm, List.mem_map_of_mem _ hnm, ?_⟩
    show ((!(Cell.str nm).isNa) &&
      decide (2 < (cellStr (Cell.str nm)).length)) = true
    rw [Bool.and_eq_true]
    refine ⟨rfl, ?_⟩
    rw [decide_eq_true_iff]
    show 2 < nm.data.length
    have h8 : ("Unnamed:".data).length ≤ nm.data.length :=
      hasSubstr_le_length _ _ (by decide) hu
    have h8e : ("Unnamed:".data).length = 8 := rfl
    omega

theorem goodRow_short (r : List Cell) (hr : r.length ≤ 1) :
    goodRow r = false := by
  have h1 : r.countP (fun c => !c.isNa) ≤ 1 :=
    le_trans (List.countP_le_length _) hr
  have h2 : decide (2 ≤ r.countP (fun c => !c.isNa)) = false := by
    rw [decide_eq_false_iff_not]
    omega
  unfold goodRow
  rw [h2]
  rfl

theorem trigger_unnamed (Z : Frame) (htr : triggerRecovery Z = true) :
    ∃ nm ∈ frameNames Z, isUnnamedName nm = true := by
  unfold triggerRecovery at htr
  rw [decide_eq_true_iff] at htr
  have hle : (frameNames Z).countP isUnnamedName ≤ (frameNames Z).length :=
    List.countP_le_length _
  have hpos : 0 < (frameNames Z).countP isUnnamedName := by omega
  exact List.countP_pos_iff.mp hpos

theorem excelHeaderStage_serializeDF (Y Z0 : Frame)
    (hparse : parseTable (serializeDF Y) 0 MAX_ROWS = Z0)
    (hnames : frameNames Y = frameNames Z0) :
    excelHeaderStage (serializeDF Y) = Z0 := by
  have hhdr : Y.map (fun c => Cell.str c.name) = (frameNames Z0).map Cell.str := by
    rw [← hnames]
    unfold frameNames
    rw [List.map_map]
    rfl
  have hYlen : Y.length = Z0.length := by
    have hlen := congrArg List.length hnames
    unfold frameNames at hlen
    rw [List.length_map, List.length_map] at hlen
    exact hlen
  show (if triggerRecovery (parseTable (serializeDF Y) 0 MAX_ROWS) = true then
      match findHeaderRow (serializeDF Y) with
      | some k => if 0 < k then parseTable (serializeDF Y) k MAX_ROWS
          else parseTable (serializeDF Y) 0 MAX_ROWS
      | none => parseTable (serializeDF Y) 0 MAX_ROWS
    else parseTable (serializeDF Y) 0 MAX_ROWS) = Z0
  rw [hparse]
  by_cases htr : triggerRecovery Z0 = true
  · rw [if_pos htr]
    by_cases h2 : 2 ≤ Z0.length
    · have hun : ∃ nm ∈ frameNames Z0, isUnnamedName nm = true :=
        trigger_unnamed Z0 htr
      have hgood : goodRow (Y.map (fun c => Cell.str c.name)) = true := by
        rw [hhdr]
        refine goodRow_names _ ?_ hun
        show 2 ≤ (frameNames Z0).length
        unfold frameNames
        rw [List.length_map]
        exact h2
      have hfind : findHeaderRow (serializeDF Y) = some 0 := by
        show (if goodRow (Y.map (fun c => Cell.str c.name)) = true then some 0
          else findGo (((List.range (numRows Y)).map (serializeRow Y)).take 9)
            1) = some 0
        rw [hgood]
        rfl
      rw [hfind]
      rfl
    · have h2' : Z0.length < 2 := by omega
      have hfind : findHeaderRow (serializeDF Y) = none := by
        show findGo ((serializeDF Y).take 10) 0 = none
        refine findGo_none ?_ 0
        intro r hr
        apply goodRow_short
        have hmem : r ∈ Y.map (fun c => Cell.str c.name) ::
            (List.range (numRows Y)).map (serializeRow Y) :=
          List.mem_of_mem_take hr
        rcases List.mem_cons.mp hmem with rfl | hmem2
        · rw [List.length_map, hYlen]
          omega
        · rcases List.mem_map.mp hmem2 with ⟨i, _, rfl⟩
          rw [serializeRow_length, hYlen]
          omega
      rw [hfind]
  · rw [if_neg htr]

theorem excelHeaderStage_parse (t : RawTable) :
    ∃ h : Nat, excelHeaderStage t = parseTable t h MAX_ROWS := by
  show ∃ h, (if triggerRecovery (parseTable t 0 MAX_ROWS) = true then
      match findHeaderRow t with
      | some k => if 0 < k then parseTable t k MAX_ROWS
          else parseTable t 0 MAX_ROWS
      | none => parseTable t 0 MAX_ROWS
    else parseTable t 0 MAX_ROWS) = parseTable t h MAX_ROWS
  by_cases htr : triggerRecovery (parseTable t 0 MAX_ROWS) = true
  · rw [if_pos htr]
    cases hf : findHeaderRow t with
    | none => exact ⟨0, rfl⟩
    | some k =>
      by_cases hk : 0 < k
      · refine ⟨k, ?_⟩
        show (if 0 < k then parseTable t k MAX_ROWS
          else parseTable t 0 MAX_ROWS) = parseTable t k MAX_ROWS
        rw [if_pos hk]
      · refine ⟨0, ?_⟩
        show (if 0 < k then parseTable t k MAX_ROWS
          else parseTable t 0 MAX_ROWS) = parseTable t 0 MAX_ROWS
        rw [if_neg hk]
  · exact ⟨0, by rw [if_neg htr]⟩

/-! ### Cleaning leaves the frame fixed once every column and row is good -/

theorem dropEmptyCols_id (Z : Frame)
    (h : ∀ c ∈ Z, ∃ x ∈ c.cells, x.isNa = false) :
    dropEmptyCols Z = Z := by
  unfold dropEmptyCols
  apply List.filter_eq_self.mpr
  intro c hc
  rcases h c hc with ⟨x, hx, hxna⟩
  exact List.any_eq_true.mpr ⟨x, hx, by rw [hxna]; rfl⟩

theorem dropEmptyRows_id (Z : Frame) (hwf : WF Z)
    (hrows : ∀ i, i < numRows Z →
      Z.any (fun c => !(c.cells.getD i Cell.na).isNa) = true) :
    dropEmptyRows Z = Z := by
  unfold dropEmptyRows
  refine (List.map_congr_left ?_).trans (List.map_id Z)
  intro c hc
  have hmask : ∀ b ∈ rowKeepMask Z, b = true := by
    intro b hb
    rcases List.mem_iff_getElem.mp hb with ⟨i, hi, rfl⟩
    have hilen : i < numRows Z := by
      rw [← rowKeepMask_length Z]
      exact hi
    rw [← List.getD_eq_getElem (rowKeepMask Z) false hi,
      rowKeepMask_getD Z i hilen]
    exact hrows i hilen
  have hmf : maskFilter (rowKeepMask Z) c.cells = c.cells :=
    maskFilter_all_true _ _ hmask (by rw [rowKeepMask_length Z, hwf c hc])
  show { c with cells := maskFilter (rowKeepMask Z) c.cells } = id c
  rw [hmf]
  rfl

/-! ### Establishing the column invariant on a cleaned parse -/

theorem colGood_cells (raw : List Cell) :
    (inferDtype raw = .i64 ∧
      ∀ x ∈ raw.map (convertCell (inferDtype raw)), x.isInt = true) ∨
    (inferDtype raw = .f64 ∧
      ∀ x ∈ raw.map (convertCell (inferDtype raw)),
        (x.isFlt || x.isNa) = true) ∨
    (inferDtype raw = .obj ∧
      (raw = [] ∨ ∃ i, i < raw.length ∧
        ((raw.map (convertCell (inferDtype raw))).getD i Cell.na).isStr
          = true)) := by
  rcases inferDtype_mem raw with hobj | hf64 | hi64
  · right; right
    refine ⟨hobj, ?_⟩
    by_cases hraweq : raw = []
    · exact Or.inl hraweq
    · right
      obtain ⟨x, hx, hxs⟩ := inferDtype_eq_obj raw hobj hraweq
      rcases List.mem_iff_getElem.mp hx with ⟨i, hi, hxi⟩
      refine ⟨i, hi, ?_⟩
      have hlen : i < (raw.map (convertCell (inferDtype raw))).length := by
        rw [List.length_map]
        exact hi
      rw [List.getD_eq_getElem _ _ hlen, List.getElem_map, hxi, hobj,
        convertCell_obj]
      exact hxs
  · right; left
    refine ⟨hf64, ?_⟩
    have hstr := inferDtype_eq_f64 raw hf64
    intro y hy
    rcases List.mem_map.mp hy with ⟨x, hx, rfl⟩
    rw [hf64]
    cases x with
    | int z => rfl
    | flt z => rfl
    | na => rfl
    | str s => exact Bool.noConfusion (hstr (Cell.str s) hx)
  · left
    refine ⟨hi64, ?_⟩
    obtain ⟨_, hall⟩ := inferDtype_eq_i64 raw hi64
    intro y hy
    rcases List.mem_map.mp hy with ⟨x, hx, rfl⟩
    rw [hi64, convertCell_i64]
    exact hall x hx

theorem mem_masked_of_cell (Q : Frame) {n : Nat} (hu : Uniform n Q)
    (c : Col) (hc : c ∈ Q) (i : Nat) (hi : i < c.cells.length)
    (hna : (c.cells.getD i Cell.na).isNa = false) :
    c.cells.getD i Cell.na ∈ maskFilter (rowKeepMask Q) c.cells := by
  have hiQ : i < numRows Q := by
    rw [uniform_numRows hu (List.ne_nil_of_mem hc), ← hu c hc]
    exact hi
  apply mem_maskFilter_of_getD Cell.na _ _ i hi
  rw [rowKeepMask_getD Q i hiQ]
  exact List.any_eq_true.mpr ⟨c, hc, by rw [hna]; rfl⟩

theorem colGood_dropEmpty_parse (t : RawTable) (h : Nat) :
    ∀ c' ∈ dropEmpty (parseTable t h MAX_ROWS), ColGood c' := by
  intro c' hc'
  unfold dropEmpty dropEmptyRows at hc'
  rcases List.mem_map.mp hc' with ⟨c, hc, hce⟩
  subst hce
  have hu : Uniform (parseData t h MAX_ROWS).length
      (dropEmptyCols (parseTable t h MAX_ROWS)) :=
    uniform_dropEmptyCols (uniform_parseTable t h MAX_ROWS)
  obtain ⟨hcP, hany⟩ := List.mem_filter.mp hc
  rcases List.any_eq_true.mp hany with ⟨x, hx, hxb⟩
  rcases List.mem_iff_getElem.mp hx with ⟨i, hi, hxi⟩
  have hna : (c.cells.getD i Cell.na).isNa = false := by
    rw [List.getD_eq_getElem _ _ hi, hxi]
    cases hxna : x.isNa
    · rfl
    · exfalso
      rw [hxna] at hxb
      exact Bool.noConfusion hxb
  have hmem1 := mem_masked_of_cell _ hu c hc i hi hna
  refine ⟨⟨c.cells.getD i Cell.na, hmem1, hna⟩, ?_⟩
  rw [parseTable_eq] at hcP
  rcases List.mem_map.mp hcP with ⟨j, hjr, hje⟩
  subst hje
  rcases colGood_cells
      ((parseData t h MAX_ROWS).map (fun r => r.getD j Cell.na)) with
    ⟨hd, hall⟩ | ⟨hd, hall⟩ | ⟨hd, hrest⟩
  · left
    refine ⟨hd, ?_⟩
    intro y hym
    exact hall y (maskFilter_subset hym)
  · right; left
    refine ⟨hd, ?_⟩
    intro y hym
    exact hall y (maskFilter_subset hym)
  · right; right
    refine ⟨hd, ?_⟩
    rcases hrest with hnil | ⟨i2, hi2, hstr⟩
    · exfalso
      have hcells : (parseCol (t.getD h [])
          (parseData t h MAX_ROWS) j).cells =
          ((parseData t h MAX_ROWS).map (fun r => r.getD j Cell.na)).map
            (convertCell (inferDtype ((parseData t h MAX_ROWS).map
              (fun r => r.getD j Cell.na)))) := rfl
      rw [hcells, hnil] at hany
      exact Bool.noConfusion hany
    · have hi2c : i2 < (parseCol (t.getD h [])
          (parseData t h MAX_ROWS) j).cells.length := by
        rw [parseCol_cells_length]
        rw [List.length_map] at hi2
        exact hi2
      have hstr2 : ((parseCol (t.getD h []) (parseData t h MAX_ROWS) j).cells.getD
          i2 Cell.na).isStr = true := hstr
      have hna2 : ((parseCol (t.getD h []) (parseData t h MAX_ROWS) j).cells.getD
          i2 Cell.na).isNa = false := by
        cases hcell : (parseCol (t.getD h [])
            (parseData t h MAX_ROWS) j).cells.getD i2 Cell.na with
        | str s => rfl
        | na =>
          rw [hcell] at hstr2
          exact Bool.noConfusion hstr2
        | int z =>
          rw [hcell] at hstr2
          exact Bool.noConfusion hstr2
        | flt z =>
          rw [hcell] at hstr2
          exact Bool.noConfusion hstr2
      exact ⟨_, mem_masked_of_cell _ hu _ hc i2 hi2c hna2, hstr2⟩

theorem rows_nonEmpty_dropEmpty (df : Frame)
    (hwfQ : WF (dropEmptyCols df)) :
    ∀ i, i < numRows (dropEmpty df) →
      (dropEmpty df).any (fun c => !(c.cells.getD i Cell.na).isNa) = true := by
  intro i hi
  cases hQ : dropEmptyCols df with
  | nil =>
    exfalso
    have hnil : dropEmpty df = [] := by
      unfold dropEmpty dropEmptyRows
      rw [hQ]
      rfl
    rw [hnil] at hi
    exact Nat.not_lt_zero i hi
  | cons c1 rest =>
    have hZdef : dropEmpty df = (c1 :: rest).map
        (fun c => { c with
          cells := maskFilter (rowKeepMask (c1 :: rest)) c.cells }) := by
      unfold dropEmpty dropEmptyRows
      rw [hQ]
    have hmasklen : (rowKeepMask (c1 :: rest)).length = c1.cells.length := by
      rw [rowKeepMask_length]
      rfl
    have hnum : numRows (dropEmpty df) =
        (maskFilter (rowKeepMask (c1 :: rest)) c1.cells).length := by
      rw [hZdef]
      rfl
    rw [hnum, maskFilter_eq_map_trueIdxs Cell.na _ _ hmasklen,
      List.length_map] at hi
    have hi0mem : (trueIdxs (rowKeepMask (c1 :: rest))).getD i 0 ∈
        trueIdxs (rowKeepMask (c1 :: rest)) := by
      rw [List.getD_eq_getElem _ _ hi]
      exact List.getElem_mem hi
    have hm0 : (rowKeepMask (c1 :: rest)).getD
        ((trueIdxs (rowKeepMask (c1 :: rest))).getD i 0) false = true :=
      trueIdxs_getD_true _ _ hi0mem
    have hi0lt : (trueIdxs (rowKeepMask (c1 :: rest))).getD i 0 <
        (rowKeepMask (c1 :: rest)).length :=
      trueIdxs_lt _ _ hi0mem
    have hi0Q : (trueIdxs (rowKeepMask (c1 :: rest))).getD i 0 <
        numRows (c1 :: rest) := by
      rw [← rowKeepMask_length]
      exact hi0lt
    rw [rowKeepMask_getD _ _ hi0Q] at hm0
    rcases List.any_eq_true.mp hm0 with ⟨c, hcQ, hcell⟩
    have hclen : (rowKeepMask (c1 :: rest)).length = c.cells.length := by
      have hwfc := hwfQ c (by rw [hQ]; exact hcQ)
      rw [hQ] at hwfc
      rw [rowKeepMask_length]
      exact hwfc.symm
    rw [List.any_eq_true]
    refine ⟨{ c with
      cells := maskFilter (rowKeepMask (c1 :: rest)) c.cells }, ?_, ?_⟩
    · rw [hZdef]
      exact List.mem_map_of_mem _ hcQ
    · have hgetd : (maskFilter (rowKeepMask (c1 :: rest)) c.cells).getD
          i Cell.na =
          c.cells.getD ((trueIdxs (rowKeepMask (c1 :: rest))).getD i 0)
            Cell.na := by
        rw [maskFilter_eq_map_trueIdxs Cell.na _ _ hclen]
        have hi2 : i < ((trueIdxs (rowKeepMask (c1 :: rest))).map
            (fun k => c.cells.getD k Cell.na)).length := by
          rw [List.length_map]
          exact hi
        rw [List.getD_eq_getElem _ _ hi2, List.getElem_map,
          List.getD_eq_getElem _ 0 hi]
      show (!((maskFilter (rowKeepMask (c1 :: rest)) c.cells).getD
        i Cell.na).isNa) = true
      rw [hgetd]
      exact hcell

theorem numRows_dropEmpty_parse_le (t : RawTable) (h : Nat) :
    numRows (dropEmpty (parseTable t h MAX_ROWS)) ≤ MAX_ROWS := by
  cases hZ : dropEmpty (parseTable t h MAX_ROWS) with
  | nil => exact Nat.zero_le _
  | cons c1 rest =>
    have hc1 : c1 ∈ dropEmpty (parseTable t h MAX_ROWS) := by
      rw [hZ]
      exact List.mem_cons_self _ _
    show c1.cells.length ≤ MAX_ROWS
    unfold dropEmpty dropEmptyRows at hc1
    rcases List.mem_map.mp hc1 with ⟨c0, hc0, hce⟩
    rw [← hce]
    show (maskFilter
      (rowKeepMask (dropEmptyCols (parseTable t h MAX_ROWS)))
      c0.cells).length ≤ MAX_ROWS
    calc (maskFilter (rowKeepMask (dropEmptyCols (parseTable t h MAX_ROWS)))
          c0.cells).length
        ≤ c0.cells.length := length_maskFilter_le _ _
      _ = (parseData t h MAX_ROWS).length :=
          (uniform_dropEmptyCols (uniform_parseTable t h MAX_ROWS)) c0 hc0
      _ ≤ MAX_ROWS := by
          unfold parseData
          rw [List.length_map]
          exact List.length_take_le _ _

/-! ### The roundtrip on a cleaned frame -/

theorem roundtrip_optimize (Z0 : Frame) (hwf : WF Z0)
    (hcap : numRows Z0 ≤ MAX_ROWS)
    (hcg : ∀ c ∈ Z0, ColGood c)
    (hrows : ∀ i, i < numRows Z0 →
      Z0.any (fun c => !(c.cells.getD i Cell.na).isNa) = true) :
    read_excel_optimized (serializeDF (optimize_dtypes Z0)) =
      optimize_dtypes Z0 := by
  have hwfY : WF (optimize_dtypes Z0) := by
    intro c hc
    rcases List.mem_map.mp hc with ⟨c0, hc0, hce⟩
    rw [← hce, optCol_cells, optimize_numRows]
    exact hwf c0 hc0
  have hcapY : numRows (optimize_dtypes Z0) ≤ MAX_ROWS := by
    rw [optimize_numRows]
    exact hcap
  have hparse : parseTable (serializeDF (optimize_dtypes Z0)) 0 MAX_ROWS
      = Z0 := by
    rw [parseTable_serializeDF _ hwfY hcapY,
      show optimize_dtypes Z0 = Z0.map optCol from rfl, List.map_map]
    refine (List.map_congr_left ?_).trans (List.map_id Z0)
    intro c hc
    exact reCol_optCol c (hcg c hc)
  have hnames : frameNames (optimize_dtypes Z0) = frameNames Z0 := by
    unfold frameNames optimize_dtypes
    rw [List.map_map]
    apply List.map_congr_left
    intro c _
    exact optCol_name c
  have hstage : excelHeaderStage (serializeDF (optimize_dtypes Z0)) = Z0 :=
    excelHeaderStage_serializeDF _ _ hparse hnames
  unfold read_excel_optimized
  rw [hstage]
  have hcols : dropEmptyCols Z0 = Z0 :=
    dropEmptyCols_id Z0 (fun c hc => (hcg c hc).1)
  have hdrop : dropEmpty Z0 = Z0 := by
    unfold dropEmpty
    rw [hcols]
    exact dropEmptyRows_id Z0 hwf hrows
  rw [hdrop]

/-- C6 (amended): the spreadsheet/Excel reading pipeline — header handling,
dropping all-empty rows and columns, dtype optimization — is idempotent on
re-ingesting its own serialized output, for every raw input table.  (The
chunked CSV reader is not: when its per-chunk-cleaned row total overshoots the
cap, re-ingesting the output truncates it further.) -/
theorem C6_ingest_idempotent (t : RawTable) :
    read_excel_optimized (serializeDF (read_excel_optimized t)) =
      read_excel_optimized t := by
  obtain ⟨h, hh⟩ := excelHeaderStage_parse t
  have hre : read_excel_optimized t =
      optimize_dtypes (dropEmpty (parseTable t h MAX_ROWS)) := by
    unfold read_excel_optimized
    rw [hh]
  rw [hre]
  have hu : Uniform (parseData t h MAX_ROWS).length
      (dropEmptyCols (parseTable t h MAX_ROWS)) :=
    uniform_dropEmptyCols (uniform_parseTable t h MAX_ROWS)
  exact roundtrip_optimize _
    (uniform_WF (uniform_dropEmptyRows hu))
    (numRows_dropEmpty_parse_le t h)
    (colGood_dropEmpty_parse t h)
    (rows_nonEmpty_dropEmpty (parseTable t h MAX_ROWS) (uniform_WF hu))

end DataViz
